import Mathlib

/-!
# Verification of the crawl-and-extract engine

A shallow embedding of the core of the `scraper` repository
(`src/core/crawler.py` and `src/core/scraper.py`) together with proofs /
refutations of the specification's claims about it.

The Python code leans on `urllib.parse` (`urlparse`, `urljoin`), on `re`
substitutions, and on `aiohttp` / BeautifulSoup.  The pure algorithmic parts
(`urlparse`, `urljoin`, URL normalisation, admission filtering, the crawl /
map orchestration, the retry loop of `_fetch_url`, the markdown cleanup pass,
and the error routing of `scrape` and `_extract_metadata`) are embedded
faithfully as executable Lean functions; the effectful collaborators
(network, browser, HTML parsing) are abstracted as explicit outcome
parameters ("worlds") threaded through the orchestration exactly where the
Python code calls them.

Strings are modelled as `List Char` internally (Lean `String` at the
interfaces).  Known, deliberate model boundaries (each noted again at its
definition site):
* `urllib.parse._checknetloc` runs an NFKC-based check on non-ASCII netlocs
  and `_check_bracketed_host` parses IPv6 literals; both are modelled
  conservatively as parse errors (all claims are settled on bracket-free
  ASCII inputs).
* Python's `str.lower`, `str.isalpha`, `\s`, `str.strip()` act on full
  Unicode; the model implements their exact ASCII behaviour (all inputs in
  the claims are ASCII).
-/

namespace ScraperSpec

/-! ## Python string primitives on `List Char` -/

/-- Characters stripped by `urlsplit`'s leading strip
(`_WHATWG_C0_CONTROL_OR_SPACE`, i.e. code points `0x00`–`0x20`). -/
def isC0OrSpace (c : Char) : Bool := c.toNat ≤ 32

/-- `url.lstrip(_WHATWG_C0_CONTROL_OR_SPACE)` — only the *leading* strip, as
in CPython's `urlsplit`. -/
def pyLstripC0 (s : List Char) : List Char := s.dropWhile isC0OrSpace

/-- `str.strip(_WHATWG_C0_CONTROL_OR_SPACE)` (used on the default scheme). -/
def pyStripC0 (s : List Char) : List Char :=
  ((s.dropWhile isC0OrSpace).reverse.dropWhile isC0OrSpace).reverse

/-- `_UNSAFE_URL_BYTES_TO_REMOVE = ['\t', '\r', '\n']`. -/
def isTabCrLf (c : Char) : Bool := c = '\t' || c = '\r' || c = '\n'

/-- `url.replace(b, "")` for each unsafe byte. -/
def dropTabCrLf (s : List Char) : List Char := s.filter (fun c => !isTabCrLf c)

/-- Split a list at the first occurrence of `c`; `none` when `c` is absent.
Models Python `s.find(c)` + slicing / `s.split(c, 1)`. -/
def splitFirst? (c : Char) : List Char → Option (List Char × List Char)
  | [] => none
  | a :: t =>
    if a = c then some ([], t)
    else (splitFirst? c t).map (fun p => (a :: p.1, p.2))

/-- Split a list at the last occurrence of `c` (Python `s.rfind(c)`). -/
def splitLast? (c : Char) (s : List Char) : Option (List Char × List Char) :=
  (splitFirst? c s.reverse).map (fun p => (p.2.reverse, p.1.reverse))

/-- `_splitnetloc`: the netloc extends to the earliest of `/`, `?`, `#`. -/
def isNetlocDelim (c : Char) : Bool := c = '/' || c = '?' || c = '#'

/-- `str.rstrip('/')`: drop the maximal run of trailing `'/'` characters. -/
def rstripSlash : List Char → List Char
  | [] => []
  | c :: t =>
    match rstripSlash t with
    | [] => if c = '/' then [] else [c]
    | r => c :: r

/-- ASCII `str.lower` (the schemes it is applied to consist of
`scheme_chars`, which are ASCII). -/
def pyLower (s : List Char) : List Char := s.map Char.toLower

/-- Python's `c in s` membership test, as a Bool. -/
def hasChar (c : Char) (s : List Char) : Bool := s.any (fun x => x = c)

/-! ## `urllib.parse.urlsplit` / `urlparse` -/

/-- `scheme_chars = ascii_letters + digits + '+-.'`. -/
def isSchemeChar (c : Char) : Bool :=
  c.isAlpha || c.isDigit || c = '+' || c = '-' || c = '.'

structure UrlSplitParts where
  scheme : List Char
  netloc : List Char
  path : List Char
  query : List Char
  fragment : List Char
deriving Repr, DecidableEq

/-- Scheme detection of `urlsplit`: `i = url.find(':')`; the split fires when
`i > 0`, the first character is an ASCII letter and all of `url[:i]` are
`scheme_chars`; otherwise the default scheme applies and the url is kept. -/
def schemeSplit (url dscheme : List Char) : List Char × List Char :=
  match splitFirst? ':' url with
  | some (pre, post) =>
    if pre ≠ [] ∧ (pre.headD ' ').isAlpha ∧ pre.all isSchemeChar then
      (pyLower pre, post)
    else (dscheme, url)
  | none => (dscheme, url)

/--
Netloc extraction of `urlsplit`: fires only when the remainder starts with
`//`; the netloc runs to the earliest of `/`, `?`, `#`.

Model boundary: `_check_bracketed_host` (IPv6/IPvFuture literals) and the
NFKC check of `_checknetloc` on non-ASCII netlocs are approximated
conservatively by a parse error; every input appearing in the claims below
is bracket-free ASCII, where the model is exact.
-/
def netlocSplit (rest : List Char) : Except String (List Char × List Char) :=
  match rest with
  | '/' :: '/' :: t =>
    let nl := t.takeWhile (fun c => !isNetlocDelim c)
    if hasChar '[' nl || hasChar ']' nl then
      .error "Invalid IPv6 URL"
    else if !nl.all (fun c => c.toNat ≤ 127) then
      .error "netloc outside the ASCII model"
    else
      .ok (nl, t.dropWhile (fun c => !isNetlocDelim c))
  | _ => .ok ([], rest)

/-- `if '#' in url: url, fragment = url.split('#', 1)`. -/
def fragSplit (r : List Char) : List Char × List Char :=
  match splitFirst? '#' r with
  | some (a, b) => (a, b)
  | none => (r, [])

/-- `if '?' in url: url, query = url.split('?', 1)`. -/
def querySplit (r : List Char) : List Char × List Char :=
  match splitFirst? '?' r with
  | some (a, b) => (a, b)
  | none => (r, [])

/-- CPython 3.11 `urlsplit(url, scheme)` (with `allow_fragments=True`). -/
def urlsplitAux (url0 scheme0 : List Char) : Except String UrlSplitParts :=
  let s := schemeSplit (dropTabCrLf (pyLstripC0 url0))
    (dropTabCrLf (pyStripC0 scheme0))
  match netlocSplit s.2 with
  | .error e => .error e
  | .ok (netloc, rest1) =>
    .ok ⟨s.1, netloc, (querySplit (fragSplit rest1).1).1,
      (querySplit (fragSplit rest1).1).2, (fragSplit rest1).2⟩

/-- Schemes of `urllib.parse.uses_params`. -/
def usesParams : List (List Char) :=
  [[], "ftp".data, "hdl".data, "prospero".data, "http".data, "imap".data,
   "https".data, "shttp".data, "rtsp".data, "rtsps".data, "rtspu".data,
   "sip".data, "sips".data, "mms".data, "sftp".data, "tel".data]

/-- `urllib.parse._splitparams`. -/
def splitparams (url : List Char) : List Char × List Char :=
  if hasChar '/' url then
    match splitLast? '/' url with
    | some (pre, post) =>
      -- `i = url.find(';', url.rfind('/'))`: the search starts at the last
      -- `/`, hence hits exactly the `;` occurrences inside `post`
      match splitFirst? ';' post with
      | some (a, b) => (pre ++ '/' :: a, b)
      | none => (url, [])
    | none => (url, [])
  else
    match splitFirst? ';' url with
    | some (a, b) => (a, b)
    | none => (url, [])

structure UrlParseParts where
  scheme : List Char
  netloc : List Char
  path : List Char
  params : List Char
  query : List Char
  fragment : List Char
deriving Repr, DecidableEq

/-- CPython `urlparse(url, scheme)`. -/
def urlparseAux (url0 scheme0 : List Char) : Except String UrlParseParts :=
  match urlsplitAux url0 scheme0 with
  | .error e => .error e
  | .ok s =>
    if usesParams.contains s.scheme ∧ hasChar ';' s.path then
      let (p, par) := splitparams s.path
      .ok ⟨s.scheme, s.netloc, p, par, s.query, s.fragment⟩
    else
      .ok ⟨s.scheme, s.netloc, s.path, [], s.query, s.fragment⟩

/-! ## `Crawler._normalize_url` -/

/--
`Crawler._normalize_url` (crawler.py:41–44):

    parsed = urlparse(url)
    return f"{parsed.scheme}://{parsed.netloc}{parsed.path.rstrip('/')}{'?' + parsed.query if parsed.query else ''}"
-/
def normalizeAux (url : List Char) : Except String (List Char) :=
  match urlparseAux url [] with
  | .error e => .error e
  | .ok p =>
    .ok (p.scheme ++ ':' :: '/' :: '/' :: p.netloc ++ rstripSlash p.path ++
         (if p.query ≠ [] then '?' :: p.query else []))

/-- String-level wrapper of `Crawler._normalize_url`. -/
def normalizeUrl (url : String) : Except String String :=
  match normalizeAux url.data with
  | .error e => .error e
  | .ok l => .ok ⟨l⟩

-- sanity checks against CPython 3.11 (`urlparse` + the f-string):
theorem normalize_sanity_trailing :
    normalizeUrl "https://example.com/" = .ok "https://example.com" := by rfl

theorem normalize_sanity_fragment :
    normalizeUrl "https://example.com/a#frag" = .ok "https://example.com/a" := by rfl

theorem normalize_sanity_query :
    normalizeUrl "http://a.com/p?a#b" = .ok "http://a.com/p?a" := by rfl

theorem normalize_sanity_scheme_case :
    normalizeUrl "HTTP://A.com/P/" = .ok "http://A.com/P" := by rfl

theorem normalize_sanity_no_scheme :
    normalizeUrl "foo" = .ok "://foo" := by rfl

theorem normalize_sanity_params :
    normalizeUrl "http://a.com/x/y;p" = .ok "http://a.com/x/y" := by rfl

/-! ## Helper lemmas on the string primitives -/

theorem splitFirst_append_cons {c : Char} {a : List Char} (b : List Char)
    (h : c ∉ a) : splitFirst? c (a ++ c :: b) = some (a, b) := by
  induction a with
  | nil => simp [splitFirst?]
  | cons x xs ih =>
    have hx : ¬(x = c) := fun hxc => h (by simp [hxc])
    have hxs : c ∉ xs := fun hm => h (by simp [hm])
    simp [splitFirst?, hx, ih hxs]

theorem splitFirst_of_not_mem {c : Char} {s : List Char} (h : c ∉ s) :
    splitFirst? c s = none := by
  induction s with
  | nil => rfl
  | cons x xs ih =>
    have hx : ¬(x = c) := fun hxc => h (by simp [hxc])
    have hxs : c ∉ xs := fun hm => h (by simp [hm])
    simp [splitFirst?, hx, ih hxs]

theorem takeWhile_append_all {p : Char → Bool} {a : List Char} (b : List Char)
    (h : ∀ x ∈ a, p x = true) :
    (a ++ b).takeWhile p = a ++ b.takeWhile p := by
  induction a with
  | nil => rfl
  | cons x xs ih =>
    have hx := h x (by simp)
    simp [List.takeWhile, hx, ih (fun y hy => h y (by simp [hy]))]

theorem dropWhile_append_all {p : Char → Bool} {a : List Char} (b : List Char)
    (h : ∀ x ∈ a, p x = true) :
    (a ++ b).dropWhile p = b.dropWhile p := by
  induction a with
  | nil => rfl
  | cons x xs ih =>
    have hx := h x (by simp)
    simp [List.dropWhile, hx, ih (fun y hy => h y (by simp [hy]))]

theorem mem_of_mem_takeWhile {p : Char → Bool} {x : Char} :
    ∀ {l : List Char}, x ∈ l.takeWhile p → x ∈ l := by
  intro l
  induction l with
  | nil => simp
  | cons y ys ih =>
    by_cases hy : p y = true
    · intro hm
      rw [List.takeWhile_cons, if_pos hy] at hm
      rcases List.mem_cons.mp hm with h | h
      · simp [h]
      · exact List.mem_cons_of_mem _ (ih h)
    · intro hm
      rw [List.takeWhile_cons, if_neg hy] at hm
      simp at hm

theorem pred_of_mem_takeWhile {p : Char → Bool} {x : Char} :
    ∀ {l : List Char}, x ∈ l.takeWhile p → p x = true := by
  intro l
  induction l with
  | nil => simp
  | cons y ys ih =>
    by_cases hy : p y = true
    · intro hm
      rw [List.takeWhile_cons, if_pos hy] at hm
      rcases List.mem_cons.mp hm with h | h
      · exact h ▸ hy
      · exact ih h
    · intro hm
      rw [List.takeWhile_cons, if_neg hy] at hm
      simp at hm

theorem mem_of_mem_dropWhile {p : Char → Bool} {x : Char} :
    ∀ {l : List Char}, x ∈ l.dropWhile p → x ∈ l := by
  intro l
  induction l with
  | nil => simp
  | cons y ys ih =>
    by_cases hy : p y = true
    · intro hm
      rw [List.dropWhile_cons, if_pos hy] at hm
      exact List.mem_cons_of_mem _ (ih hm)
    · intro hm
      rw [List.dropWhile_cons, if_neg hy] at hm
      exact hm

theorem dropWhile_head_false {p : Char → Bool} :
    ∀ {l : List Char} {y : Char} {ys : List Char},
      l.dropWhile p = y :: ys → p y = false := by
  intro l
  induction l with
  | nil => intro y ys h; simp at h
  | cons a as ih =>
    intro y ys h
    by_cases ha : p a = true
    · rw [List.dropWhile_cons, if_pos ha] at h
      exact ih h
    · rw [List.dropWhile_cons, if_neg ha] at h
      cases h
      exact Bool.not_eq_true _ ▸ Bool.of_not_eq_true ha

theorem rstripSlash_nil : rstripSlash [] = [] := rfl

theorem rstripSlash_cons_of_nil {t : List Char} (h : rstripSlash t = [])
    (c : Char) : rstripSlash (c :: t) = if c = '/' then [] else [c] := by
  show (match rstripSlash t with
        | [] => if c = '/' then [] else [c]
        | r => c :: r) = _
  rw [h]

theorem rstripSlash_cons_of_ne {t : List Char} {r : Char} {rs : List Char}
    (h : rstripSlash t = r :: rs) (c : Char) :
    rstripSlash (c :: t) = c :: r :: rs := by
  show (match rstripSlash t with
        | [] => if c = '/' then [] else [c]
        | r => c :: r) = _
  rw [h]

theorem rstripSlash_idem (l : List Char) :
    rstripSlash (rstripSlash l) = rstripSlash l := by
  induction l with
  | nil => rfl
  | cons c t ih =>
    cases hr : rstripSlash t with
    | nil =>
      by_cases hc : c = '/'
      · rw [rstripSlash_cons_of_nil hr, if_pos hc, rstripSlash_nil]
      · rw [rstripSlash_cons_of_nil hr, if_neg hc,
            rstripSlash_cons_of_nil rstripSlash_nil, if_neg hc]
    | cons r rs =>
      rw [hr] at ih
      rw [rstripSlash_cons_of_ne hr, rstripSlash_cons_of_ne ih]

theorem rstripSlash_head (c : Char) (t : List Char) :
    rstripSlash (c :: t) = [] ∨ ∃ t', rstripSlash (c :: t) = c :: t' := by
  cases hr : rstripSlash t with
  | nil =>
    by_cases hc : c = '/'
    · left; rw [rstripSlash_cons_of_nil hr, if_pos hc]
    · right; exact ⟨[], by rw [rstripSlash_cons_of_nil hr, if_neg hc]⟩
  | cons r rs => right; exact ⟨r :: rs, rstripSlash_cons_of_ne hr c⟩

theorem mem_of_mem_rstripSlash {x : Char} :
    ∀ {l : List Char}, x ∈ rstripSlash l → x ∈ l := by
  intro l
  induction l with
  | nil => simp [rstripSlash]
  | cons c t ih =>
    intro hm
    cases hr : rstripSlash t with
    | nil =>
      rw [rstripSlash_cons_of_nil hr] at hm
      by_cases hc : c = '/'
      · rw [if_pos hc] at hm; simp at hm
      · rw [if_neg hc] at hm
        simp at hm
        simp [hm]
    | cons r rs =>
      rw [rstripSlash_cons_of_ne hr] at hm
      rcases List.mem_cons.mp hm with h | h
      · simp [h]
      · exact List.mem_cons_of_mem _ (ih (hr ▸ h))

theorem splitFirst_eq_some_parts {c : Char} :
    ∀ {s a b : List Char}, splitFirst? c s = some (a, b) →
      s = a ++ c :: b ∧ c ∉ a := by
  intro s
  induction s with
  | nil => intro a b h; simp [splitFirst?] at h
  | cons x xs ih =>
    intro a b h
    by_cases hx : x = c
    · rw [splitFirst?, if_pos hx] at h
      cases h
      subst hx
      exact ⟨rfl, by simp⟩
    · rw [splitFirst?, if_neg hx] at h
      cases hs : splitFirst? c xs with
      | none => rw [hs] at h; simp at h
      | some p =>
        obtain ⟨p1, p2⟩ := p
        rw [hs] at h
        have h' : some ((x :: p1, p2) : List Char × List Char) = some (a, b) := h
        injection h' with h''
        have ha : x :: p1 = a := congrArg Prod.fst h''
        have hb : p2 = b := congrArg Prod.snd h''
        subst ha
        subst hb
        obtain ⟨h1, h2⟩ := ih hs
        constructor
        · simp [h1]
        · intro hm
          rcases List.mem_cons.mp hm with hh | hh
          · exact hx hh.symm
          · exact h2 hh

theorem splitFirst_eq_none_iff {c : Char} {s : List Char} :
    splitFirst? c s = none ↔ c ∉ s := by
  constructor
  · intro h hm
    induction s with
    | nil => simp at hm
    | cons x xs ih =>
      by_cases hx : x = c
      · rw [splitFirst?, if_pos hx] at h; simp at h
      · rw [splitFirst?, if_neg hx] at h
        rcases List.mem_cons.mp hm with hh | hh
        · exact hx hh.symm
        · cases hs : splitFirst? c xs with
          | none => exact ih hs hh
          | some p => rw [hs] at h; simp at h
  · exact splitFirst_of_not_mem

theorem hasChar_eq_false {c : Char} {s : List Char} (h : c ∉ s) :
    hasChar c s = false := by
  cases hh : hasChar c s with
  | false => rfl
  | true =>
    obtain ⟨x, hx, hxc⟩ := List.any_eq_true.mp hh
    exact absurd ((of_decide_eq_true hxc) ▸ hx) h

theorem hasChar_eq_true {c : Char} {s : List Char} (h : c ∈ s) :
    hasChar c s = true :=
  List.any_eq_true.mpr ⟨c, h, by simp⟩

/-! ## Idempotence of `_normalize_url` on well-formed http(s) URLs (C2) -/

/-- Characters on which the model of `urlparse` is exact and which do not
trigger the params split, the control/space stripping, or the bracketed-host
check: printable ASCII without `;`, `[`, `]`. -/
def goodUrlChar (c : Char) : Bool :=
  (32 < c.toNat && c.toNat ≤ 126) && !(c = ';') && !(c = '[') && !(c = ']')

/-- The domain of the amended idempotence claim: an `http://` or `https://`
URL made of `goodUrlChar` characters. -/
def goodUrlStr (u : String) : Prop :=
  ((∃ t, u.data = "http://".data ++ t) ∨ (∃ t, u.data = "https://".data ++ t))
    ∧ ∀ c ∈ u.data, goodUrlChar c = true

/-- The exact shape of `_normalize_url`'s output string. -/
def renderUrl (sch nl p q : List Char) : List Char :=
  sch ++ ':' :: '/' :: '/' :: nl ++ p ++ (if q ≠ [] then '?' :: q else [])

theorem goodUrlChar_facts {c : Char} (h : goodUrlChar c = true) :
    isC0OrSpace c = false ∧ isTabCrLf c = false ∧ c ≠ ';' ∧ c ≠ '[' ∧
      c ≠ ']' ∧ c.toNat ≤ 127 := by
  simp only [goodUrlChar, Bool.and_eq_true, Bool.not_eq_true', decide_eq_false_iff_not,
    decide_eq_true_eq] at h
  obtain ⟨⟨⟨⟨h1, h2⟩, h3⟩, h4⟩, h5⟩ := h
  refine ⟨?_, ?_, h3, h4, h5, by omega⟩
  · simp only [isC0OrSpace, decide_eq_false_iff_not]; omega
  · simp only [isTabCrLf, Bool.or_eq_false_iff, decide_eq_false_iff_not]
    refine ⟨⟨fun hc => ?_, fun hc => ?_⟩, fun hc => ?_⟩ <;> subst hc <;>
      exact absurd h1 (by decide)

theorem strip_noop_of_good {s : List Char}
    (h : ∀ c ∈ s, goodUrlChar c = true) :
    dropTabCrLf (pyLstripC0 s) = s := by
  have h2 : pyLstripC0 s = s := by
    cases s with
    | nil => rfl
    | cons c t =>
      have := (goodUrlChar_facts (h c (by simp))).1
      simp [pyLstripC0, List.dropWhile_cons, this]
  rw [h2]
  exact List.filter_eq_self.mpr fun a ha => by
    simp [(goodUrlChar_facts (h a ha)).2.1]

theorem takeWhile_all_eq {p : Char → Bool} {l : List Char}
    (h : ∀ x ∈ l, p x = true) : l.takeWhile p = l := by
  induction l with
  | nil => rfl
  | cons x xs ih =>
    rw [List.takeWhile_cons, if_pos (h x (by simp)),
      ih (fun y hy => h y (by simp [hy]))]

theorem dropWhile_all_eq {p : Char → Bool} {l : List Char}
    (h : ∀ x ∈ l, p x = true) : l.dropWhile p = [] := by
  induction l with
  | nil => rfl
  | cons x xs ih =>
    rw [List.dropWhile_cons, if_pos (h x (by simp))]
    exact ih (fun y hy => h y (by simp [hy]))

theorem schemeSplit_of_scheme {sch : List Char} (rest d : List Char)
    (h1 : ':' ∉ sch) (h2 : sch ≠ [])
    (h3 : (sch.headD ' ').isAlpha = true) (h4 : sch.all isSchemeChar = true) :
    schemeSplit (sch ++ ':' :: rest) d = (pyLower sch, rest) := by
  rw [schemeSplit, splitFirst_append_cons rest h1]
  exact if_pos ⟨h2, h3, h4⟩

theorem netlocSplit_ok {nl r : List Char}
    (hd : ∀ c ∈ nl, isNetlocDelim c = false)
    (hbr1 : '[' ∉ nl) (hbr2 : ']' ∉ nl)
    (hascii : ∀ c ∈ nl, c.toNat ≤ 127)
    (hr : r = [] ∨ ∃ x xs, r = x :: xs ∧ isNetlocDelim x = true) :
    netlocSplit ('/' :: '/' :: (nl ++ r)) = .ok (nl, r) := by
  have hpred : ∀ c ∈ nl, (fun c => !isNetlocDelim c) c = true := by
    intro c hc; simp [hd c hc]
  have htake : (nl ++ r).takeWhile (fun c => !isNetlocDelim c) = nl := by
    rw [takeWhile_append_all r hpred]
    rcases hr with h | ⟨x, xs, hx, hdx⟩
    · simp [h]
    · rw [hx, List.takeWhile_cons, if_neg (by simp [hdx])]
      simp
  have hdrop : (nl ++ r).dropWhile (fun c => !isNetlocDelim c) = r := by
    rw [dropWhile_append_all r hpred]
    rcases hr with h | ⟨x, xs, hx, hdx⟩
    · simp [h]
    · rw [hx, List.dropWhile_cons, if_neg (by simp [hdx])]
  show (let nlv := (nl ++ r).takeWhile (fun c => !isNetlocDelim c); _) = _
  rw [netlocSplit.eq_def]
  simp only [htake, hdrop, hasChar_eq_false hbr1, hasChar_eq_false hbr2,
    Bool.or_self, Bool.false_or]
  rw [if_neg (by simp), if_neg]
  simp only [Bool.not_eq_true', Bool.not_eq_false]
  exact List.all_eq_true.mpr fun x hx => decide_eq_true (hascii x hx)

theorem fragSplit_of_not_mem {r : List Char} (h : '#' ∉ r) :
    fragSplit r = (r, []) := by
  rw [fragSplit, splitFirst_of_not_mem h]

theorem querySplit_of_not_mem {r : List Char} (h : '?' ∉ r) :
    querySplit r = (r, []) := by
  rw [querySplit, splitFirst_of_not_mem h]

theorem querySplit_append {a : List Char} (b : List Char) (h : '?' ∉ a) :
    querySplit (a ++ '?' :: b) = (a, b) := by
  rw [querySplit, splitFirst_append_cons b h]

/-- Re-parsing the string rendered by `_normalize_url` from well-formed
components recovers exactly those components. -/
theorem urlsplit_render (sch nl p q : List Char)
    (hsch : sch = "http".data ∨ sch = "https".data)
    (hnlGood : ∀ c ∈ nl, goodUrlChar c = true)
    (hnlDelim : ∀ c ∈ nl, isNetlocDelim c = false)
    (hpGood : ∀ c ∈ p, goodUrlChar c = true)
    (hqGood : ∀ c ∈ q, goodUrlChar c = true)
    (hpHead : p = [] ∨ ∃ t, p = '/' :: t)
    (hpNoH : '#' ∉ p) (hpNoQ : '?' ∉ p) (hqNoH : '#' ∉ q) :
    urlsplitAux (renderUrl sch nl p q) [] = .ok ⟨sch, nl, p, q, []⟩ := by
  have hschGood : ∀ c ∈ sch, goodUrlChar c = true := by
    rcases hsch with h | h <;> subst h <;> decide
  have hschNoColon : ':' ∉ sch := by
    rcases hsch with h | h <;> subst h <;> decide
  have hifqGood : ∀ c ∈ (if q ≠ [] then '?' :: q else []), goodUrlChar c = true := by
    by_cases hq : q = []
    · simp [hq]
    · intro c hc
      rw [if_pos hq] at hc
      rcases List.mem_cons.mp hc with h | h
      · subst h; decide
      · exact hqGood c h
  have hifqNoH : '#' ∉ (if q ≠ [] then '?' :: q else []) := by
    by_cases hq : q = []
    · simp [hq]
    · intro hc
      rw [if_pos hq] at hc
      rcases List.mem_cons.mp hc with h | h
      · cases h
      · exact hqNoH h
  have hrender : renderUrl sch nl p q =
      sch ++ ':' :: ('/' :: '/' :: (nl ++ (p ++ (if q ≠ [] then '?' :: q else [])))) := by
    unfold renderUrl
    simp [List.append_assoc]
  have hgoodAll : ∀ c ∈ renderUrl sch nl p q, goodUrlChar c = true := by
    intro c hc
    rw [hrender] at hc
    rcases List.mem_append.mp hc with h | h
    · exact hschGood c h
    · rcases List.mem_cons.mp h with h | h
      · subst h; decide
      · rcases List.mem_cons.mp h with h | h
        · subst h; decide
        · rcases List.mem_cons.mp h with h | h
          · subst h; decide
          · rcases List.mem_append.mp h with h | h
            · exact hnlGood c h
            · rcases List.mem_append.mp h with h | h
              · exact hpGood c h
              · exact hifqGood c h
  have hscheme : schemeSplit (renderUrl sch nl p q) [] =
      (sch, '/' :: '/' :: (nl ++ (p ++ (if q ≠ [] then '?' :: q else [])))) := by
    rw [hrender, schemeSplit_of_scheme _ _ hschNoColon
      (by rcases hsch with h | h <;> subst h <;> decide)
      (by rcases hsch with h | h <;> subst h <;> decide)
      (by rcases hsch with h | h <;> subst h <;> decide)]
    rcases hsch with h | h <;> subst h <;> rfl
  have hrest : p ++ (if q ≠ [] then '?' :: q else []) = [] ∨
      ∃ x xs, p ++ (if q ≠ [] then '?' :: q else []) = x :: xs ∧
        isNetlocDelim x = true := by
    rcases hpHead with hp | ⟨t, hp⟩
    · subst hp
      by_cases hq : q = []
      · left; simp [hq]
      · right
        refine ⟨'?', q, ?_, by decide⟩
        rw [List.nil_append, if_pos hq]
    · subst hp
      right
      refine ⟨'/', t ++ (if q ≠ [] then '?' :: q else []), ?_, by decide⟩
      simp
  have hnetloc : netlocSplit ('/' :: '/' :: (nl ++ (p ++ (if q ≠ [] then '?' :: q else [])))) =
      .ok (nl, p ++ (if q ≠ [] then '?' :: q else [])) :=
    netlocSplit_ok hnlDelim
      (fun hm => by have := goodUrlChar_facts (hnlGood _ hm); exact this.2.2.2.1 rfl)
      (fun hm => by have := goodUrlChar_facts (hnlGood _ hm); exact this.2.2.2.2.1 rfl)
      (fun c hc => (goodUrlChar_facts (hnlGood c hc)).2.2.2.2.2) hrest
  have hfrag : fragSplit (p ++ (if q ≠ [] then '?' :: q else [])) =
      (p ++ (if q ≠ [] then '?' :: q else []), []) :=
    fragSplit_of_not_mem (by
      intro hm
      rcases List.mem_append.mp hm with h | h
      · exact hpNoH h
      · exact hifqNoH h)
  have hquery : querySplit (p ++ (if q ≠ [] then '?' :: q else [])) = (p, q) := by
    by_cases hq : q = []
    · subst hq
      simp only [ne_eq, not_true_eq_false, if_false, List.append_nil]
      exact querySplit_of_not_mem hpNoQ
    · rw [if_pos hq]
      exact querySplit_append q hpNoQ
  unfold urlsplitAux
  rw [strip_noop_of_good hgoodAll]
  have hd : dropTabCrLf (pyStripC0 []) = [] := rfl
  rw [hd, hscheme]
  simp only [hnetloc, hfrag, hquery]

theorem urlparse_render (sch nl p q : List Char)
    (hsch : sch = "http".data ∨ sch = "https".data)
    (hnlGood : ∀ c ∈ nl, goodUrlChar c = true)
    (hnlDelim : ∀ c ∈ nl, isNetlocDelim c = false)
    (hpGood : ∀ c ∈ p, goodUrlChar c = true)
    (hqGood : ∀ c ∈ q, goodUrlChar c = true)
    (hpHead : p = [] ∨ ∃ t, p = '/' :: t)
    (hpNoH : '#' ∉ p) (hpNoQ : '?' ∉ p) (hqNoH : '#' ∉ q) :
    urlparseAux (renderUrl sch nl p q) [] = .ok ⟨sch, nl, p, [], q, []⟩ := by
  have hsemi : ';' ∉ p := fun hm =>
    (goodUrlChar_facts (hpGood _ hm)).2.2.1 rfl
  unfold urlparseAux
  rw [urlsplit_render sch nl p q hsch hnlGood hnlDelim hpGood hqGood hpHead
    hpNoH hpNoQ hqNoH]
  dsimp only
  rw [if_neg]
  intro h
  rw [hasChar_eq_false hsemi] at h
  exact absurd h.2 (by simp)

theorem normalize_render (sch nl p q : List Char)
    (hsch : sch = "http".data ∨ sch = "https".data)
    (hnlGood : ∀ c ∈ nl, goodUrlChar c = true)
    (hnlDelim : ∀ c ∈ nl, isNetlocDelim c = false)
    (hpGood : ∀ c ∈ p, goodUrlChar c = true)
    (hqGood : ∀ c ∈ q, goodUrlChar c = true)
    (hpHead : p = [] ∨ ∃ t, p = '/' :: t)
    (hpNoH : '#' ∉ p) (hpNoQ : '?' ∉ p) (hqNoH : '#' ∉ q)
    (hpFix : rstripSlash p = p) :
    normalizeAux (renderUrl sch nl p q) = .ok (renderUrl sch nl p q) := by
  unfold normalizeAux
  rw [urlparse_render sch nl p q hsch hnlGood hnlDelim hpGood hqGood hpHead
    hpNoH hpNoQ hqNoH]
  show Except.ok (sch ++ ':' :: '/' :: '/' :: nl ++ rstripSlash p ++ _) = _
  rw [hpFix]
  rfl

theorem split_tail_exists (r1 : List Char)
    (hr1Good : ∀ c ∈ r1, goodUrlChar c = true)
    (hr1Head : r1 = [] ∨ ∃ x xs, r1 = x :: xs ∧ isNetlocDelim x = true) :
    ∃ p q,
      (querySplit (fragSplit r1).1).1 = p ∧ (querySplit (fragSplit r1).1).2 = q ∧
      (∀ c ∈ p, goodUrlChar c = true) ∧ (∀ c ∈ q, goodUrlChar c = true) ∧
      (p = [] ∨ ∃ t', p = '/' :: t') ∧ '#' ∉ p ∧ '?' ∉ p ∧ '#' ∉ q := by
  -- fragment split
  obtain ⟨r2, hr2eq, hr2sub, hr2NoH, hr2Head⟩ :
      ∃ r2, (fragSplit r1).1 = r2 ∧ (∀ c ∈ r2, c ∈ r1) ∧ '#' ∉ r2 ∧
        (r2 = [] ∨ ∃ x xs, r2 = x :: xs ∧ (x = '/' ∨ x = '?')) := by
    cases hf : splitFirst? '#' r1 with
    | none =>
      have hnoH : '#' ∉ r1 := splitFirst_eq_none_iff.mp hf
      refine ⟨r1, by rw [fragSplit, hf], fun c hc => hc, hnoH, ?_⟩
      rcases hr1Head with h | ⟨x, xs, hx, hdx⟩
      · left; exact h
      · right
        refine ⟨x, xs, hx, ?_⟩
        have hxH : x ≠ '#' := fun hh => hnoH (by rw [hx, hh]; simp)
        simp only [isNetlocDelim, Bool.or_eq_true, decide_eq_true_eq] at hdx
        rcases hdx with (h | h) | h
        · left; exact h
        · right; exact h
        · exact absurd h hxH
    | some ab =>
      obtain ⟨a, b⟩ := ab
      obtain ⟨heq, hnotin⟩ := splitFirst_eq_some_parts hf
      refine ⟨a, by rw [fragSplit, hf], fun c hc => by rw [heq]; simp [hc],
        hnotin, ?_⟩
      cases a with
      | nil => left; rfl
      | cons x xs =>
        right
        refine ⟨x, xs, rfl, ?_⟩
        rcases hr1Head with h | ⟨y, ys, hy, hdy⟩
        · rw [heq] at h; simp at h
        · rw [heq] at hy
          simp only [List.cons_append] at hy
          have hxy : x = y := (List.cons.injEq _ _ _ _ ▸ hy).1.symm ▸ rfl
          have hxH : x ≠ '#' := fun hh => hnotin (by rw [hh]; simp)
          subst hxy
          simp only [isNetlocDelim, Bool.or_eq_true, decide_eq_true_eq] at hdy
          rcases hdy with (h | h) | h
          · left; exact h
          · right; exact h
          · exact absurd h hxH
  rw [hr2eq]
  -- query split
  cases hq : splitFirst? '?' r2 with
  | none =>
    have hnoQ : '?' ∉ r2 := splitFirst_eq_none_iff.mp hq
    refine ⟨r2, [], by rw [querySplit, hq], by rw [querySplit, hq],
      fun c hc => hr1Good c (hr2sub c hc), by simp, ?_, hr2NoH, hnoQ, by simp⟩
    rcases hr2Head with h | ⟨x, xs, hx, hdx⟩
    · left; exact h
    · right
      refine ⟨xs, ?_⟩
      rcases hdx with h | h
      · rw [hx, h]
      · exact absurd (by rw [hx, h]; simp) hnoQ
  | some ab =>
    obtain ⟨a, b⟩ := ab
    obtain ⟨heq, hnotin⟩ := splitFirst_eq_some_parts hq
    have hasub : ∀ c ∈ a, c ∈ r2 := fun c hc => by rw [heq]; simp [hc]
    have hbsub : ∀ c ∈ b, c ∈ r2 := fun c hc => by rw [heq]; simp [hc]
    refine ⟨a, b, by rw [querySplit, hq], by rw [querySplit, hq],
      fun c hc => hr1Good c (hr2sub c (hasub c hc)),
      fun c hc => hr1Good c (hr2sub c (hbsub c hc)), ?_,
      fun hm => hr2NoH (hasub _ hm), hnotin,
      fun hm => hr2NoH (hbsub _ hm)⟩
    cases a with
    | nil => left; rfl
    | cons x xs =>
      right
      refine ⟨xs, ?_⟩
      rcases hr2Head with h | ⟨y, ys, hy, hdy⟩
      · rw [heq] at h; simp at h
      · rw [heq] at hy
        simp only [List.cons_append] at hy
        have hxy : x = y := (List.cons.injEq _ _ _ _ ▸ hy).1.symm ▸ rfl
        subst hxy
        rcases hdy with h | h
        · rw [h]
        · exact absurd (by rw [h]; simp) hnotin

/-- Parsing-then-rendering a good `http(s)://` URL yields a fixed point of
`_normalize_url`. -/
theorem normalize_good (sch t : List Char)
    (hsch : sch = "http".data ∨ sch = "https".data)
    (hgood : ∀ c ∈ t, goodUrlChar c = true) :
    ∃ v, normalizeAux (sch ++ ':' :: '/' :: '/' :: t) = .ok v ∧
      normalizeAux v = .ok v := by
  have hschGood : ∀ c ∈ sch, goodUrlChar c = true := by
    rcases hsch with h | h <;> subst h <;> decide
  have hschNoColon : ':' ∉ sch := by
    rcases hsch with h | h <;> subst h <;> decide
  have hlower : pyLower sch = sch := by
    rcases hsch with h | h <;> subst h <;> decide
  have hAll : ∀ c ∈ sch ++ ':' :: '/' :: '/' :: t, goodUrlChar c = true := by
    intro c hc
    rcases List.mem_append.mp hc with h | h
    · exact hschGood c h
    · rcases List.mem_cons.mp h with h | h
      · subst h; decide
      · rcases List.mem_cons.mp h with h | h
        · subst h; decide
        · rcases List.mem_cons.mp h with h | h
          · subst h; decide
          · exact hgood c h
  -- netloc components
  have hnlGood : ∀ c ∈ t.takeWhile (fun c => !isNetlocDelim c),
      goodUrlChar c = true := fun c hc => hgood c (mem_of_mem_takeWhile hc)
  have hnlDelim : ∀ c ∈ t.takeWhile (fun c => !isNetlocDelim c),
      isNetlocDelim c = false := fun c hc => by
    have := pred_of_mem_takeWhile hc
    simpa using this
  have hr1Good : ∀ c ∈ t.dropWhile (fun c => !isNetlocDelim c),
      goodUrlChar c = true := fun c hc => hgood c (mem_of_mem_dropWhile hc)
  have hr1Head : t.dropWhile (fun c => !isNetlocDelim c) = [] ∨
      ∃ x xs, t.dropWhile (fun c => !isNetlocDelim c) = x :: xs ∧
        isNetlocDelim x = true := by
    cases hd : t.dropWhile (fun c => !isNetlocDelim c) with
    | nil => left; rfl
    | cons x xs =>
      right
      refine ⟨x, xs, rfl, ?_⟩
      have := dropWhile_head_false hd
      simpa using this
  obtain ⟨p, q, hp1, hp2, hpGood, hqGood, hpHead, hpNoH, hpNoQ, hqNoH⟩ :=
    split_tail_exists (t.dropWhile (fun c => !isNetlocDelim c)) hr1Good hr1Head
  -- run the parser on the input
  have hurlsplit : urlsplitAux (sch ++ ':' :: '/' :: '/' :: t) [] =
      .ok ⟨sch, t.takeWhile (fun c => !isNetlocDelim c), p, q,
        (fragSplit (t.dropWhile (fun c => !isNetlocDelim c))).2⟩ := by
    unfold urlsplitAux
    rw [strip_noop_of_good hAll]
    have hd : dropTabCrLf (pyStripC0 []) = [] := rfl
    rw [hd, schemeSplit_of_scheme ('/' :: '/' :: t) [] hschNoColon
      (by rcases hsch with h | h <;> subst h <;> decide)
      (by rcases hsch with h | h <;> subst h <;> decide)
      (by rcases hsch with h | h <;> subst h <;> decide), hlower]
    dsimp only
    rw [show ('/' :: '/' :: t : List Char) =
      '/' :: '/' :: (t.takeWhile (fun c => !isNetlocDelim c) ++
        t.dropWhile (fun c => !isNetlocDelim c)) from by
        rw [List.takeWhile_append_dropWhile]]
    rw [netlocSplit_ok hnlDelim
      (fun hm => (goodUrlChar_facts (hnlGood _ hm)).2.2.2.1 rfl)
      (fun hm => (goodUrlChar_facts (hnlGood _ hm)).2.2.2.2.1 rfl)
      (fun c hc => (goodUrlChar_facts (hnlGood c hc)).2.2.2.2.2) hr1Head]
    dsimp only
    rw [hp1, hp2]
  have hsemi : ';' ∉ p := fun hm =>
    (goodUrlChar_facts (hpGood _ hm)).2.2.1 rfl
  have hnorm : normalizeAux (sch ++ ':' :: '/' :: '/' :: t) =
      .ok (renderUrl sch (t.takeWhile (fun c => !isNetlocDelim c))
        (rstripSlash p) q) := by
    unfold normalizeAux urlparseAux
    rw [hurlsplit]
    dsimp only
    rw [if_neg]
    · rfl
    · intro h
      rw [hasChar_eq_false hsemi] at h
      exact absurd h.2 (by simp)
  refine ⟨_, hnorm, ?_⟩
  exact normalize_render sch _ (rstripSlash p) q hsch hnlGood hnlDelim
    (fun c hc => hpGood c (mem_of_mem_rstripSlash hc)) hqGood
    (by
      rcases hpHead with h | ⟨t', h⟩
      · subst h; left; rfl
      · subst h
        rcases rstripSlash_head '/' t' with h2 | ⟨t2, h2⟩
        · left; exact h2
        · right; exact ⟨t2, h2⟩)
    (fun hm => hpNoH (mem_of_mem_rstripSlash hm))
    (fun hm => hpNoQ (mem_of_mem_rstripSlash hm))
    hqNoH (rstripSlash_idem p)

/-- Claim C2, counterexample: `_normalize_url` is *not* idempotent for every
input string.  On `"http://a.com/x;p/"` the first pass keeps the `;p` (the
params split of `urlparse` searches for `;` only after the last `/`, which
is here the trailing slash) and strips the trailing slash; the second pass
then finds `;p` after the new last `/` and drops it as params, so the output
changes again. -/
theorem C2_counterexample :
    normalizeUrl "http://a.com/x;p/" = .ok "http://a.com/x;p" ∧
    normalizeUrl "http://a.com/x;p" = .ok "http://a.com/x" ∧
    ("http://a.com/x" : String) ≠ "http://a.com/x;p" :=
  ⟨by rfl, by rfl, by decide⟩

/-- Claim C2 (amended): URL normalization is idempotent for every input
that starts with `http://` or `https://` and consists of printable ASCII
characters other than `;`, `[`, `]`:  normalization succeeds and applying
it to its own output changes nothing.  (The original claim quantified over
*every* input string; `C2_counterexample` refutes that.) -/
theorem C2_normalize_idem_amended (u : String) (h : goodUrlStr u) :
    ∃ v, normalizeUrl u = .ok v ∧ normalizeUrl v = .ok v := by
  obtain ⟨hshape, hgood⟩ := h
  have hex : ∃ sch t, (sch = "http".data ∨ sch = "https".data) ∧
      u.data = sch ++ ':' :: '/' :: '/' :: t := by
    rcases hshape with ⟨t, ht⟩ | ⟨t, ht⟩
    · exact ⟨"http".data, t, Or.inl rfl, by rw [ht]; rfl⟩
    · exact ⟨"https".data, t, Or.inr rfl, by rw [ht]; rfl⟩
  obtain ⟨sch, t, hsch, hu⟩ := hex
  have hgood' : ∀ c ∈ t, goodUrlChar c = true := by
    intro c hc
    apply hgood
    rw [hu]
    simp [hc]
  obtain ⟨lv, hv1, hv2⟩ := normalize_good sch t hsch hgood'
  refine ⟨⟨lv⟩, ?_, ?_⟩
  · unfold normalizeUrl
    rw [hu, hv1]
  · unfold normalizeUrl
    rw [show (String.mk lv).data = lv from rfl, hv2]

/-- Witness for `C2_normalize_idem_amended` at the concrete good URL
`"http://a.com/b/"`. -/
theorem C2_normalize_idem_witness :
    goodUrlStr "http://a.com/b/" ∧
      ∃ v, normalizeUrl "http://a.com/b/" = .ok v ∧ normalizeUrl v = .ok v :=
  have hg : goodUrlStr "http://a.com/b/" :=
    ⟨Or.inl ⟨"a.com/b/".data, rfl⟩, by decide⟩
  ⟨hg, C2_normalize_idem_amended "http://a.com/b/" hg⟩

/-! ## `Crawler._is_same_domain` and `Crawler._should_crawl` -/

/-- Python `str.split(sep)` for a single-character separator. -/
def splitOnChar (c : Char) : List Char → List (List Char)
  | [] => [[]]
  | x :: t =>
    let r := splitOnChar c t
    if x = c then [] :: r
    else
      match r with
      | h :: rt => (x :: h) :: rt
      | [] => [[x]]

/-- Python `lst[-2:]`. -/
def lastTwo {α : Type} (l : List α) : List α := l.drop (l.length - 2)

/-- `".".join(netloc.split(".")[-2:])`. -/
def lastTwoLabels (netloc : List Char) : List Char :=
  List.intercalate ['.'] (lastTwo (splitOnChar '.' netloc))

/--
`Crawler._is_same_domain` (crawler.py:27–39): full-netloc comparison, or the
last two dot-separated labels when `include_subdomains` is set.
-/
def isSameDomainAux (url1 url2 : List Char) (includeSubdomains : Bool) :
    Except String Bool :=
  match urlparseAux url1 [] with
  | .error e => .error e
  | .ok p1 =>
    match urlparseAux url2 [] with
    | .error e => .error e
    | .ok p2 =>
      if includeSubdomains then
        .ok (decide (lastTwoLabels p1.netloc = lastTwoLabels p2.netloc))
      else
        .ok (decide (p1.netloc = p2.netloc))

/-- Substring test (Python `needle in hay`). -/
def containsSub (needle : List Char) : List Char → Bool
  | [] => decide (needle = [])
  | x :: t => needle.isPrefixOf (x :: t) || containsSub needle t

/-- The fixed infrastructure blocklist of `_should_crawl`. -/
def infraBlocklist : List (List Char) :=
  ["/cdn-cgi/".data, "/wp-admin/".data, "/wp-includes/".data,
   "/assets/".data, "/static/".data]

/-- One exclude/include pattern: trailing `*` means prefix match, otherwise
exact match. -/
def matchesPattern (path pattern : List Char) : Bool :=
  if pattern.getLast? = some '*' then pattern.dropLast.isPrefixOf path
  else decide (path = pattern)

/--
The options dictionary consumed by `Crawler.crawl` / `Crawler.map` /
`Crawler._should_crawl`.  A missing key is the field's default; Python
truthiness of `options.get("max_pages")` is `≠ 0` on present values, and of
the path-pattern lists is non-emptiness.
-/
structure CrawlOpts where
  maxDepth : Option Int := none
  maxPages : Option Int := none
  excludePaths : List (List Char) := []
  includeOnlyPaths : List (List Char) := []
  allowBackwards : Bool := false
  includeSubdomains : Bool := false
  search : Option (List Char) := none

/--
`Crawler._should_crawl` (crawler.py:46–110), evaluated against an explicit
`visited` set (the Python code reads `self.visited`).  Parse failures inside
`urlparse` propagate as errors, exactly like the uncaught Python exceptions
would.
-/
def shouldCrawl (visited : List (List Char)) (url baseUrl : List Char)
    (opts : CrawlOpts) : Except String Bool :=
  -- `if not url or not url.startswith(("http://", "https://")): return False`
  if ¬("http://".data.isPrefixOf url || "https://".data.isPrefixOf url) then
    .ok false
  else
    -- `if not allow_backwards and not is_same_domain(...)` (short-circuit:
    -- `_is_same_domain` is only called when `allow_backwards` is falsy)
    let afterDomain : Except String Bool :=
      if opts.allowBackwards then .ok true
      else isSameDomainAux url baseUrl opts.includeSubdomains
    match afterDomain with
    | .error e => .error e
    | .ok false => .ok false
    | .ok true =>
      match normalizeAux url with
      | .error e => .error e
      | .ok normalized =>
        if normalized ∈ visited then .ok false
        else if (match opts.maxPages with
                 | some m => decide (m ≠ 0) && decide ((visited.length : Int) ≥ m)
                 | none => false) then .ok false
        else
          match urlparseAux normalized [] with
          | .error e => .error e
          | .ok pp =>
            let path := pp.path
            if infraBlocklist.any (fun b => containsSub b (pyLower path)) then
              .ok false
            else if opts.excludePaths ≠ [] ∧
                opts.excludePaths.any (matchesPattern path) then .ok false
            else if opts.includeOnlyPaths ≠ [] ∧
                ¬(opts.includeOnlyPaths.any (matchesPattern path)) then .ok false
            else .ok true

/-! ## `urllib.parse.urljoin` -/

/-- `urllib.parse.uses_relative`. -/
def usesRelative : List (List Char) :=
  [[], "ftp".data, "http".data, "gopher".data, "nntp".data, "imap".data,
   "wais".data, "file".data, "https".data, "shttp".data, "mms".data,
   "prospero".data, "rtsp".data, "rtsps".data, "rtspu".data, "sftp".data,
   "svn".data, "svn+ssh".data, "ws".data, "wss".data]

/-- `urllib.parse.uses_netloc`. -/
def usesNetloc : List (List Char) :=
  [[], "ftp".data, "http".data, "gopher".data, "nntp".data, "telnet".data,
   "imap".data, "wais".data, "file".data, "mms".data, "https".data,
   "shttp".data, "snews".data, "prospero".data, "rtsp".data, "rtsps".data,
   "rtspu".data, "rsync".data, "svn".data, "svn+ssh".data, "sftp".data,
   "nfs".data, "git".data, "git+ssh".data, "ws".data, "wss".data]

/-- `urllib.parse.urlunsplit`. -/
def urlunsplitAux (scheme netloc url query fragment : List Char) : List Char :=
  let url1 :=
    if netloc ≠ [] ∨ (scheme ≠ [] ∧ usesNetloc.contains scheme ∧
        ¬(['/', '/'].isPrefixOf url)) then
      '/' :: '/' :: (netloc ++
        (if url ≠ [] ∧ url.headD ' ' ≠ '/' then '/' :: url else url))
    else url
  let url2 := if scheme ≠ [] then scheme ++ ':' :: url1 else url1
  let url3 := if query ≠ [] then url2 ++ '?' :: query else url2
  if fragment ≠ [] then url3 ++ '#' :: fragment else url3

/-- `urllib.parse.urlunparse`. -/
def urlunparseAux (p : UrlParseParts) : List Char :=
  urlunsplitAux p.scheme p.netloc
    (if p.params ≠ [] then p.path ++ ';' :: p.params else p.path)
    p.query p.fragment

/-- The `..`/`.` segment resolution loop of `urljoin`. -/
def resolveSegments (acc : List (List Char)) : List (List Char) → List (List Char)
  | [] => acc
  | seg :: t =>
    if seg = ['.', '.'] then resolveSegments acc.dropLast t
    else if seg = ['.'] then resolveSegments acc t
    else resolveSegments (acc ++ [seg]) t

/-- Keep first and last, drop empty segments in between
(`segments[1:-1] = filter(None, segments[1:-1])`). -/
def filterMiddle (segs : List (List Char)) : List (List Char) :=
  match segs with
  | [] => []
  | [a] => [a]
  | a :: rest =>
    a :: (rest.dropLast.filter (fun s => s ≠ [])) ++
      (match rest.getLast? with | some z => [z] | none => [])

/-- CPython `urljoin(base, url)` (with `allow_fragments=True`). -/
def urljoinAux (base url : List Char) : Except String (List Char) :=
  if base = [] then .ok url
  else if url = [] then .ok base
  else
    match urlparseAux base [] with
    | .error e => .error e
    | .ok b =>
      match urlparseAux url b.scheme with
      | .error e => .error e
      | .ok u =>
        if u.scheme ≠ b.scheme ∨ ¬(usesRelative.contains u.scheme) then .ok url
        else
          -- `if scheme in uses_netloc: if netloc: return ...; netloc = bnetloc`
          if usesNetloc.contains u.scheme ∧ u.netloc ≠ [] then
            .ok (urlunparseAux ⟨u.scheme, u.netloc, u.path, u.params,
              u.query, u.fragment⟩)
          else
            let netloc := if usesNetloc.contains u.scheme then b.netloc
              else u.netloc
            if u.path = [] ∧ u.params = [] then
              .ok (urlunparseAux ⟨u.scheme, netloc, b.path, b.params,
                (if u.query = [] then b.query else u.query), u.fragment⟩)
            else
              let baseParts0 := splitOnChar '/' b.path
              let baseParts := if baseParts0.getLast? ≠ some [] then
                baseParts0.dropLast else baseParts0
              let segments :=
                if u.path.headD ' ' = '/' ∧ u.path ≠ [] then
                  splitOnChar '/' u.path
                else filterMiddle (baseParts ++ splitOnChar '/' u.path)
              let resolved0 := resolveSegments [] segments
              let resolved := if segments.getLast? = some ['.'] ∨
                  segments.getLast? = some ['.', '.'] then
                resolved0 ++ [[]] else resolved0
              let rpath := List.intercalate ['/'] resolved
              .ok (urlunparseAux ⟨u.scheme, netloc,
                (if rpath = [] then ['/'] else rpath), u.params, u.query,
                u.fragment⟩)

-- sanity checks against CPython
theorem urljoin_sanity_abs :
    urljoinAux "https://example.com/".data "https://example.com/a".data =
      .ok "https://example.com/a".data := by rfl

theorem urljoin_sanity_frag :
    urljoinAux "https://example.com/".data "https://example.com/a#frag".data =
      .ok "https://example.com/a#frag".data := by rfl

theorem urljoin_sanity_rel :
    urljoinAux "https://example.com/x/y".data "../z".data =
      .ok "https://example.com/z".data := by rfl

theorem urljoin_sanity_other :
    urljoinAux "https://example.com/".data "https://other.com/x".data =
      .ok "https://other.com/x".data := by rfl

/-! ## The `PageResult` data model returned by `Scraper.scrape`

A Python dict with a fixed key set is modelled as a structure; a key that the
code may leave absent is modelled as an `Option` (or by its default value
when the code itself initialises it to that default). -/

/-- One entry of `result["links"]`. -/
structure LinkRec where
  text : String
  url : String
  nofollow : Bool
deriving Repr, DecidableEq

/-- The `status` metadata value: `None`, an HTTP status code, or the literal
string `"failed"` written by the generic outer handler of `scrape`. -/
inductive StatusV where
  | noneV
  | code (n : Int)
  | failedV
deriving Repr, DecidableEq

/-- The `schema_org` metadata value: the default `{}`, or the first JSON-LD
dict (or first element of a non-empty JSON-LD list), kept abstract as its
payload string. -/
inductive SchemaOrgVal where
  | emptyDict
  | objVal (payload : String)
deriving Repr, DecidableEq

/-- The metadata dictionary built by `scrape` and `_extract_metadata`.
`headers`/`content_type` are carried verbatim; `keywords` and `viewport`
keys are only created when found, hence `Option`. -/
structure MetaRec where
  title : String := ""
  description : String := ""
  language : String := ""
  cannonical : String := ""  -- field name as spelled in the source
  final_url : Option String := none
  source_url : String := ""
  status : StatusV := .noneV
  headers : List (String × String) := []
  og_data : List (String × String) := []
  twitter_data : List (String × String) := []
  schema_org : SchemaOrgVal := .emptyDict
  page_type : String := "unknown"
  content_type : String := "text/html"
  keywords : Option String := none
  viewport : Option String := none
  retrieved_at : String := ""
  error : Option String := none
deriving Repr, DecidableEq

/-- The `PageResult` dictionary returned by `Scraper.scrape`.  `jsonSet`
records whether the success path created the redundant `"json"` key (its
value duplicates `metadata`/`content`). -/
structure PageRes where
  error : Option String := none
  metadata : MetaRec := {}
  content : List (String × String) := []
  links : List LinkRec := []
  jsonSet : Bool := false
deriving Repr, DecidableEq

/-- Python truthiness of `result.get("error")`: present and non-empty. -/
def truthyErr : Option String → Bool
  | none => false
  | some s => decide (s ≠ "")

/-! ## `Crawler.map` -/

/-- Python string `<` (code-point lexicographic). -/
def strLt : List Char → List Char → Bool
  | [], [] => false
  | [], _ :: _ => true
  | _ :: _, [] => false
  | x :: xs, y :: ys =>
    if x.toNat < y.toNat then true
    else if y.toNat < x.toNat then false
    else strLt xs ys

def insertSorted (s : String) : List String → List String
  | [] => [s]
  | x :: t => if strLt s.data x.data then s :: x :: t else x :: insertSorted s t

/-- Python `sorted` on a list of distinct strings. -/
def sortStrs (l : List String) : List String := l.foldr insertSorted []

/-- `set.add`: append only when absent (iteration order of the model is
insertion order; the final `sorted` makes the result order-canonical). -/
def addIfAbsent (s : String) (l : List String) : List String :=
  if s ∈ l then l else l ++ [s]

/-- The link loop of `Crawler.map` (crawler.py:144–148): for each link,
normalize `urljoin(url, link["url"])` and add it when `_should_crawl`
admits it against the (empty, never-grown) visited set. -/
def mapLinkLoop (url : String) (opts : CrawlOpts) :
    List LinkRec → List String → Except String (List String)
  | [], acc => .ok acc
  | l :: t, acc =>
    match urljoinAux url.data l.url.data with
    | .error e => .error e
    | .ok joined =>
      match normalizeAux joined with
      | .error e => .error e
      | .ok nm =>
        match shouldCrawl [] nm url.data opts with
        | .error e => .error e
        | .ok true => mapLinkLoop url opts t (addIfAbsent ⟨nm⟩ acc)
        | .ok false => mapLinkLoop url opts t acc

/-- Python `lst[:m]` for an `int` bound `m` (negative bounds count from the
end; `Crawler.map` does not validate `max_pages`). -/
def pySlice (m : Int) (l : List String) : List String :=
  if 0 ≤ m then l.take m.toNat else l.take (l.length - (-m).toNat)

/--
`Crawler.map` (crawler.py:112–156).  The scraper call is abstracted as
`scrapeFn` (an exception raised by it would propagate, hence `Except`);
everything after it is the source's logic: raise on a truthy `error`, seed
the URL set with the *raw* start URL, fold the links through
normalize+admission, apply the `search` filter and the `max_pages`
truncation, and return the sorted list.
-/
def mapModel (scrapeFn : String → Except String PageRes) (url : String)
    (opts : CrawlOpts) : Except String (List String) :=
  match scrapeFn url with
  | .error e => .error e
  | .ok r =>
    if truthyErr r.error then .error (r.error.getD "")
    else
      match mapLinkLoop url opts r.links [url] with
      | .error e => .error e
      | .ok urls =>
        let urls1 :=
          match opts.search with
          | some s =>
            if s ≠ [] then
              urls.filter (fun u => containsSub (pyLower s) (pyLower u.data))
            else urls
          | none => urls
        let urls2 :=
          match opts.maxPages with
          | some m => if m ≠ 0 then pySlice m urls1 else urls1
          | none => urls1
        .ok (sortStrs urls2)

/-- The scrape outcome of the C7 scenario: the start page links to
`/a`, `/a#frag` and a cross-domain URL. -/
def c7ScrapeFn : String → Except String PageRes := fun u =>
  if u = "https://example.com/" then
    .ok { content := [("markdown", "page")],
          links := [⟨"a", "https://example.com/a", false⟩,
                    ⟨"a again", "https://example.com/a#frag", false⟩,
                    ⟨"other", "https://other.com/x", false⟩],
          jsonSet := true }
  else .error "unexpected URL"

/-- Claim C7, counterexample: on the stated scenario `map` does **not**
return `["https://example.com", "https://example.com/a"]` — the start URL
is added to the result set verbatim (`urls = {url}` in crawler.py:143), not
in normalized form, so the first element keeps its trailing slash. -/
theorem C7_counterexample :
    mapModel c7ScrapeFn "https://example.com/" {} ≠
      .ok ["https://example.com", "https://example.com/a"] := by
  intro h
  have heval : mapModel c7ScrapeFn "https://example.com/" {} =
      .ok ["https://example.com/", "https://example.com/a"] := by rfl
  rw [heval] at h
  exact absurd (Except.ok.inj h) (by decide)

/-- Claim C7 (amended): on the stated scenario `map` returns exactly
`["https://example.com/", "https://example.com/a"]`: the fragment link is
deduplicated by normalization and the cross-domain link is excluded, but
the start URL itself is kept verbatim (unnormalized, trailing slash and
all) while only the discovered link is a normalized URL. -/
theorem C7_map_scenario_amended :
    mapModel c7ScrapeFn "https://example.com/" {} =
      .ok ["https://example.com/", "https://example.com/a"] ∧
    normalizeUrl "https://example.com/" = .ok "https://example.com" :=
  ⟨by rfl, by rfl⟩

/-- Claim C10: whenever the initial scrape of the start URL returns a result
whose `error` field is set (to a non-empty message, the Python truthiness of
`result.get("error")`), `map` raises that error to its caller instead of
returning a URL list (crawler.py:140–141). -/
theorem C10_map_error_raises (scrapeFn : String → Except String PageRes)
    (url : String) (opts : CrawlOpts) (r : PageRes) (e : String)
    (h1 : scrapeFn url = .ok r) (h2 : r.error = some e) (h3 : e ≠ "") :
    mapModel scrapeFn url opts = .error e := by
  unfold mapModel
  rw [h1]
  dsimp only
  rw [h2]
  simp [truthyErr, h3]

/-- Witness for `C10_map_error_raises` at a concrete failing scrape. -/
theorem C10_map_error_raises_witness :
    mapModel (fun _ => .ok { error := some "boom" }) "https://e.com/" {} =
      .error "boom" :=
  C10_map_error_raises (fun _ => .ok { error := some "boom" }) "https://e.com/"
    {} { error := some "boom" } "boom" rfl rfl (by decide)

/-! ## `Crawler.crawl`

The orchestrator (crawler.py:158–268).  The scraper is abstracted as
`scrapeFn : List Char → Except String PageRes` — `crawl` calls
`scraper.scrape(normalized, ...)`, and an exception raised by it lands in
the per-URL `except` handler.  Python's set iteration order is unspecified;
the model iterates the queue in insertion order (every universal theorem
below is order-insensitive).  `start_time`/`end_time` timestamps and the
echoed options are outside the model. -/

/-- One value of the `CrawlResult.pages` dict: the success-branch shape
`{"content": ..., "metadata": ..., "links": ...}` (crawler.py:239–243, with
no `"error"` key), or the except-branch shape
`{"error": str(e), "content": {}, "metadata": {}}` (crawler.py:256–260). -/
inductive PageEntry where
  | recorded (content : List (String × String)) (metadata : MetaRec)
      (links : List LinkRec)
  | errored (msg : String)
deriving Repr, DecidableEq, Inhabited

/-- `set.add` for the visited/queue sets. -/
def setAdd (x : List Char) (l : List (List Char)) : List (List Char) :=
  if x ∈ l then l else l ++ [x]

/-- Dict insertion (`results["pages"][k] = v`): replace or append. -/
def dictInsert (k : List Char) (v : PageEntry) :
    List (List Char × PageEntry) → List (List Char × PageEntry)
  | [] => [(k, v)]
  | (k', v') :: t => if k' = k then (k, v) :: t else (k', v') :: dictInsert k v t

/-- Dict lookup. -/
def dictLookup (k : List Char) :
    List (List Char × PageEntry) → Option PageEntry
  | [] => none
  | (k', v') :: t => if k' = k then some v' else dictLookup k t

structure CrawlState where
  visited : List (List Char)
  queue : List (List Char)
  pages : List (List Char × PageEntry)
  totalPages : Nat
deriving Repr, DecidableEq

/-- The link-discovery loop inside the per-URL `try` (crawler.py:245–253):
each link is resolved against the *raw* current URL, normalized, and added
to the queue when admitted.  A parse exception stops the loop, keeping the
queue additions already made (they are caught by the per-URL handler). -/
def crawlLinkLoop (baseUrl : List Char) (opts : CrawlOpts)
    (visited : List (List Char)) (currentUrl : List Char) :
    List LinkRec → List (List Char) → List (List Char) × Option String
  | [], q => (q, none)
  | l :: t, q =>
    match urljoinAux currentUrl l.url.data with
    | .error e => (q, some e)
    | .ok joined =>
      match normalizeAux joined with
      | .error e => (q, some e)
      | .ok nl =>
        match shouldCrawl visited nl baseUrl opts with
        | .error e => (q, some e)
        | .ok true => crawlLinkLoop baseUrl opts visited currentUrl t (setAdd nl q)
        | .ok false => crawlLinkLoop baseUrl opts visited currentUrl t q

/--
Processing of one wave member (crawler.py:209–261): admission check and
normalization happen *outside* the `try` (their exceptions abort the crawl);
the scrape, the success recording and the link loop sit *inside* it — any
exception there records the `{"error": ...}` entry (overwriting a success
entry already written for this URL) and the crawl continues.  A scrape
result that is returned (not raised) with a truthy `error` is **not
recorded at all** (the `if result and not result.get("error")` guard), but
still counts toward `total_pages`.
-/
def processUrl (scrapeFn : List Char → Except String PageRes)
    (baseUrl : List Char) (opts : CrawlOpts) (st : CrawlState)
    (currentUrl : List Char) : Except String CrawlState :=
  match shouldCrawl st.visited currentUrl baseUrl opts with
  | .error e => .error e
  | .ok false => .ok st
  | .ok true =>
    match normalizeAux currentUrl with
    | .error e => .error e
    | .ok nm =>
      let visited' := setAdd nm st.visited
      let pq : List (List Char × PageEntry) × List (List Char) :=
        match scrapeFn nm with
        | .error e => (dictInsert nm (.errored e) st.pages, st.queue)
        | .ok r =>
          -- `if result and not result.get("error")`: the result dict is
          -- never empty, so `result` is always truthy
          if truthyErr r.error then (st.pages, st.queue)
          else
            let pg := dictInsert nm (.recorded r.content r.metadata r.links)
              st.pages
            -- `if result.get("links")`: iterating an empty list is a no-op
            match crawlLinkLoop baseUrl opts visited' currentUrl r.links
              st.queue with
            | (q, none) => (pg, q)
            | (q, some e) => (dictInsert nm (.errored e) pg, q)
      .ok { visited := visited', queue := pq.2, pages := pq.1,
            totalPages := st.totalPages + 1 }

/-- One wave: the snapshot of the queue, processed in order. -/
def processWave (scrapeFn : List Char → Except String PageRes)
    (baseUrl : List Char) (opts : CrawlOpts) :
    List (List Char) → CrawlState → Except String CrawlState
  | [], st => .ok st
  | u :: t, st =>
    match processUrl scrapeFn baseUrl opts st u with
    | .error e => .error e
    | .ok st' => processWave scrapeFn baseUrl opts t st'

/-- The `while self.queue and current_depth < max_depth` guard
(`max_depth` is `float('inf')` when the option is absent). -/
def crawlGuard (maxDepth : Option Int) (queue : List (List Char))
    (depth : Nat) : Bool :=
  !queue.isEmpty &&
    (match maxDepth with
     | none => true
     | some d => decide ((depth : Int) < d))

/-- The wave loop.  `fuel` only bounds the number of waves the model is
willing to unfold; `.ok none` means the bound was hit (the Python loop
would simply keep running). -/
def crawlLoop (scrapeFn : List Char → Except String PageRes)
    (baseUrl : List Char) (opts : CrawlOpts) :
    Nat → CrawlState → Nat → Except String (Option (CrawlState × Nat))
  | fuel, st, depth =>
    if crawlGuard opts.maxDepth st.queue depth then
      match fuel with
      | 0 => .ok none
      | fuel' + 1 =>
        match processWave scrapeFn baseUrl opts st.queue
          { st with queue := [] } with
        | .error e => .error e
        | .ok st2 => crawlLoop scrapeFn baseUrl opts fuel' st2 (depth + 1)
    else .ok (some (st, depth))

/-- The part of `CrawlResult` in the model: the pages mapping plus the
`total_pages` and `depth_reached` metadata. -/
structure CrawlRes where
  pages : List (List Char × PageEntry)
  totalPages : Nat
  depthReached : Int
  startUrl : String
deriving Repr, DecidableEq

/--
`Crawler.crawl` (crawler.py:158–268): option validation (`max_depth`
non-negative number, `max_pages` positive integer — the `isinstance`
checks on non-numeric values are outside the model), fresh visited/queue
seeded with the raw start URL, the wave loop, and the final metadata
(`depth_reached = current_depth - 1`).
-/
def crawlModel (scrapeFn : List Char → Except String PageRes) (url : String)
    (opts : CrawlOpts) (fuel : Nat) : Except String (Option CrawlRes) :=
  if (match opts.maxDepth with | some d => decide (d < 0) | none => false) then
    .error "max_depth must be a non-negative number"
  else if (match opts.maxPages with | some m => decide (m < 1) | none => false) then
    .error "max_pages must be a positive integer"
  else
    match crawlLoop scrapeFn url.data opts fuel
      { visited := [], queue := [url.data], pages := [], totalPages := 0 } 0 with
    | .error e => .error e
    | .ok none => .ok none
    | .ok (some (st, depth)) =>
      .ok (some { pages := st.pages, totalPages := st.totalPages,
                  depthReached := (depth : Int) - 1, startUrl := url })

/-- Claim C1 (amended): with `max_depth = 0` the crawl visits **nothing**.
The wave loop's guard `current_depth < max_depth` is already false at
`current_depth = 0`, so no wave runs: for every scraper behaviour the
result has an empty `pages` mapping, `total_pages = 0` and
`depth_reached = -1`; no URL — not even the start URL — is fetched.
(The original claim said `pages` holds exactly the start URL;
`C1_counterexample` refutes that.) -/
theorem C1_crawl_depth0_amended (scrapeFn : List Char → Except String PageRes)
    (url : String) (opts : CrawlOpts) (fuel : Nat)
    (hd : opts.maxDepth = some 0)
    (hmp : (match opts.maxPages with
            | some m => decide (m < 1)
            | none => false) = false) :
    crawlModel scrapeFn url opts fuel =
      .ok (some { pages := [], totalPages := 0, depthReached := -1,
                  startUrl := url }) := by
  unfold crawlModel
  rw [hd, hmp]
  have hguard : crawlGuard (some 0) [url.data] 0 = false := by
    simp [crawlGuard]
  unfold crawlLoop
  rw [hd, if_neg (by simp [hguard])]
  rfl

/-- Witness for `C1_crawl_depth0_amended` on the concrete scenario world
(whose start page would yield links if it were fetched). -/
theorem C1_crawl_depth0_witness :
    crawlModel (fun u => c7ScrapeFn ⟨u⟩) "https://example.com/"
        { maxDepth := some 0 } 7 =
      .ok (some { pages := [], totalPages := 0, depthReached := -1,
                  startUrl := "https://example.com/" }) :=
  C1_crawl_depth0_amended (fun u => c7ScrapeFn ⟨u⟩) "https://example.com/"
    { maxDepth := some 0 } 7 rfl rfl

/-- Claim C1, counterexample: on a world where the start page would be
scraped successfully (with links), `crawl` with `maxDepth = 0` returns an
**empty** `pages` mapping — not one entry for the normalized start URL.
The start URL is never fetched: the `0 < 0` loop guard fails before the
first wave. -/
theorem C1_counterexample :
    ∃ res, crawlModel (fun u => c7ScrapeFn ⟨u⟩) "https://example.com/"
        { maxDepth := some 0 } 7 = .ok (some res) ∧
      res.pages = [] ∧
      ¬∃ e, res.pages = [("https://example.com".data, e)] := by
  refine ⟨{ pages := [], totalPages := 0, depthReached := -1,
            startUrl := "https://example.com/" }, by rfl, rfl, ?_⟩
  rintro ⟨e, he⟩
  simp at he

/-! ## The `max_pages` bound (C6): invariants of the crawl state -/

def pagesKeys (d : List (List Char × PageEntry)) : List (List Char) :=
  d.map Prod.fst

theorem setAdd_eq_self_of_mem {x : List Char} {l : List (List Char)}
    (h : x ∈ l) : setAdd x l = l := by
  rw [setAdd, if_pos h]

theorem setAdd_eq_append_of_not_mem {x : List Char} {l : List (List Char)}
    (h : x ∉ l) : setAdd x l = l ++ [x] := by
  rw [setAdd, if_neg h]

theorem mem_setAdd_self (x : List Char) (l : List (List Char)) :
    x ∈ setAdd x l := by
  by_cases h : x ∈ l
  · rw [setAdd_eq_self_of_mem h]; exact h
  · rw [setAdd_eq_append_of_not_mem h]; simp

theorem mem_setAdd_of_mem {y x : List Char} {l : List (List Char)}
    (h : y ∈ l) : y ∈ setAdd x l := by
  by_cases hx : x ∈ l
  · rw [setAdd_eq_self_of_mem hx]; exact h
  · rw [setAdd_eq_append_of_not_mem hx]; simp [h]

theorem setAdd_nodup {x : List Char} {l : List (List Char)}
    (h : l.Nodup) : (setAdd x l).Nodup := by
  by_cases hx : x ∈ l
  · rw [setAdd_eq_self_of_mem hx]; exact h
  · rw [setAdd_eq_append_of_not_mem hx]
    simp [List.nodup_append, h, hx]

theorem keys_dictInsert_of_mem {k : List Char} {v : PageEntry}
    {d : List (List Char × PageEntry)} (h : k ∈ pagesKeys d) :
    pagesKeys (dictInsert k v d) = pagesKeys d := by
  induction d with
  | nil => simp [pagesKeys] at h
  | cons kv t ih =>
    obtain ⟨k', v'⟩ := kv
    by_cases hk : k' = k
    · subst hk
      rw [dictInsert, if_pos rfl]
      simp [pagesKeys]
    · rw [dictInsert, if_neg hk]
      have h2 : k ∈ pagesKeys t := by
        simp [pagesKeys] at h ⊢
        rcases h with h | h
        · exact absurd h.symm hk
        · exact h
      simp only [pagesKeys, List.map_cons] at ih ⊢
      rw [ih h2]

theorem keys_dictInsert_of_not_mem {k : List Char} {v : PageEntry}
    {d : List (List Char × PageEntry)} (h : k ∉ pagesKeys d) :
    pagesKeys (dictInsert k v d) = pagesKeys d ++ [k] := by
  induction d with
  | nil => simp [pagesKeys, dictInsert]
  | cons kv t ih =>
    obtain ⟨k', v'⟩ := kv
    have hk : k' ≠ k := by
      intro he; exact h (by simp [pagesKeys, he])
    rw [dictInsert, if_neg hk]
    have h2 : k ∉ pagesKeys t := fun hm => h (by simp [pagesKeys] at hm ⊢; right; exact hm)
    simp only [pagesKeys, List.map_cons] at ih ⊢
    rw [ih h2]
    simp

/-- The state invariant behind the `max_pages` bound: the visited set has no
duplicates and is capped by `m`, and the pages dict has distinct keys all of
which were visited. -/
def crawlInv (m : Int) (st : CrawlState) : Prop :=
  st.visited.Nodup ∧ (pagesKeys st.pages).Nodup ∧
    (∀ k ∈ pagesKeys st.pages, k ∈ st.visited) ∧
    ((st.visited.length : Int) ≤ m)

/-- What `_should_crawl`'s success tells us: the normalized URL is fresh and
(when `max_pages` is a truthy bound) the visited count is still below it. -/
theorem shouldCrawl_true_facts {visited : List (List Char)}
    {url baseUrl : List Char} {opts : CrawlOpts} {nm : List Char}
    (h : shouldCrawl visited url baseUrl opts = .ok true)
    (hn : normalizeAux url = .ok nm) :
    nm ∉ visited ∧
      (∀ m : Int, opts.maxPages = some m → m ≠ 0 →
        (visited.length : Int) < m) := by
  unfold shouldCrawl at h
  by_cases h1 : ¬(("http://".data.isPrefixOf url ||
      "https://".data.isPrefixOf url) = true)
  · rw [if_pos h1] at h; simp at h
  · rw [if_neg h1] at h
    dsimp only at h
    cases had : (if opts.allowBackwards then (Except.ok true : Except String Bool)
        else isSameDomainAux url baseUrl opts.includeSubdomains) with
    | error e => rw [had] at h; simp at h
    | ok b =>
      rw [had] at h
      cases b with
      | false => simp at h
      | true =>
        dsimp only at h
        rw [hn] at h
        dsimp only at h
        by_cases hmem : nm ∈ visited
        · rw [if_pos hmem] at h; simp at h
        · rw [if_neg hmem] at h
          by_cases hcond : (match opts.maxPages with
              | some m => decide (m ≠ 0) && decide ((visited.length : Int) ≥ m)
              | none => false) = true
          · rw [if_pos hcond] at h; simp at h
          · rw [if_neg hcond] at h
            refine ⟨hmem, ?_⟩
            intro m hm hm0
            rw [hm] at hcond
            have hfin : ¬(m ≤ (visited.length : Int)) := by
              intro hle
              apply hcond
              simp [hm0, hle]
            omega

theorem dictInsert_keys_step {nm : List Char} {v : PageEntry}
    {d : List (List Char × PageEntry)} (hnodup : (pagesKeys d).Nodup) :
    (pagesKeys (dictInsert nm v d)).Nodup ∧
      ∀ k ∈ pagesKeys (dictInsert nm v d), k ∈ pagesKeys d ∨ k = nm := by
  by_cases hmem : nm ∈ pagesKeys d
  · rw [keys_dictInsert_of_mem hmem]
    exact ⟨hnodup, fun k hk => Or.inl hk⟩
  · rw [keys_dictInsert_of_not_mem hmem]
    refine ⟨by simp [List.nodup_append, hnodup, hmem], ?_⟩
    intro k hk
    rcases List.mem_append.mp hk with h | h
    · exact Or.inl h
    · simp at h; exact Or.inr h

theorem processUrl_inv {scrapeFn : List Char → Except String PageRes}
    {baseUrl : List Char} {opts : CrawlOpts} {st st' : CrawlState}
    {u : List Char} {m : Int}
    (hm : opts.maxPages = some m) (hm1 : 1 ≤ m)
    (hinv : crawlInv m st)
    (h : processUrl scrapeFn baseUrl opts st u = .ok st') :
    crawlInv m st' := by
  obtain ⟨hvn, hkn, hsub, hlen⟩ := hinv
  unfold processUrl at h
  cases hsc : shouldCrawl st.visited u baseUrl opts with
  | error e => rw [hsc] at h; simp at h
  | ok b =>
    rw [hsc] at h
    cases b with
    | false =>
      dsimp only at h
      injection h with h
      subst h
      exact ⟨hvn, hkn, hsub, hlen⟩
    | true =>
      cases hnm : normalizeAux u with
      | error e => rw [hnm] at h; simp at h
      | ok nm =>
        rw [hnm] at h
        dsimp only at h
        obtain ⟨hfresh, hbound⟩ := shouldCrawl_true_facts hsc hnm
        have hlt : (st.visited.length : Int) < m := hbound m hm (by omega)
        injection h with h
        subst h
        have hvis : setAdd nm st.visited = st.visited ++ [nm] :=
          setAdd_eq_append_of_not_mem hfresh
        have hvn' : (setAdd nm st.visited).Nodup := setAdd_nodup hvn
        have hlen' : ((setAdd nm st.visited).length : Int) ≤ m := by
          rw [hvis]; simp; omega
        -- a common bound for every shape the pages dict can take
        have pwork : ∀ pg : List (List Char × PageEntry),
            (pagesKeys pg).Nodup →
            (∀ k ∈ pagesKeys pg, k ∈ st.visited ∨ k = nm) →
            (pagesKeys pg).Nodup ∧
              ∀ k ∈ pagesKeys pg, k ∈ setAdd nm st.visited := by
          intro pg h1 h2
          refine ⟨h1, fun k hk => ?_⟩
          rcases h2 k hk with h3 | h3
          · exact mem_setAdd_of_mem h3
          · subst h3; exact mem_setAdd_self k _
        have hbase : (pagesKeys st.pages).Nodup ∧
            ∀ k ∈ pagesKeys st.pages, k ∈ st.visited ∨ k = nm :=
          ⟨hkn, fun k hk => Or.inl (hsub k hk)⟩
        have hstep : ∀ v pg, (pagesKeys pg).Nodup →
            (∀ k ∈ pagesKeys pg, k ∈ st.visited ∨ k = nm) →
            (pagesKeys (dictInsert nm v pg)).Nodup ∧
              ∀ k ∈ pagesKeys (dictInsert nm v pg), k ∈ st.visited ∨ k = nm := by
          intro v pg h1 h2
          obtain ⟨h3, h4⟩ := @dictInsert_keys_step nm v pg h1
          refine ⟨h3, fun k hk => ?_⟩
          rcases h4 k hk with h5 | h5
          · exact h2 k h5
          · exact Or.inr h5
        -- the pages dict after the try block, in every branch
        have hpg : (pagesKeys (match scrapeFn nm with
            | .error e => (dictInsert nm (.errored e) st.pages, st.queue)
            | .ok r =>
              if truthyErr r.error then (st.pages, st.queue)
              else
                let pg := dictInsert nm
                  (.recorded r.content r.metadata r.links) st.pages
                match crawlLinkLoop baseUrl opts (setAdd nm st.visited) u
                  r.links st.queue with
                | (q, none) => (pg, q)
                | (q, some e) => (dictInsert nm (.errored e) pg, q)).1).Nodup ∧
            ∀ k ∈ pagesKeys (match scrapeFn nm with
            | .error e => (dictInsert nm (.errored e) st.pages, st.queue)
            | .ok r =>
              if truthyErr r.error then (st.pages, st.queue)
              else
                let pg := dictInsert nm
                  (.recorded r.content r.metadata r.links) st.pages
                match crawlLinkLoop baseUrl opts (setAdd nm st.visited) u
                  r.links st.queue with
                | (q, none) => (pg, q)
                | (q, some e) => (dictInsert nm (.errored e) pg, q)).1,
              k ∈ st.visited ∨ k = nm := by
          cases hs : scrapeFn nm with
          | error e => exact hstep _ _ hbase.1 hbase.2
          | ok r =>
            dsimp only
            by_cases he : truthyErr r.error = true
            · rw [if_pos he]
              simpa using hbase
            · rw [if_neg he]
              cases hll : crawlLinkLoop baseUrl opts (setAdd nm st.visited) u
                r.links st.queue with
              | mk q oe =>
                cases oe with
                | none =>
                  exact hstep _ _ hbase.1 hbase.2
                | some e =>
                  have h1 := hstep (.recorded r.content r.metadata r.links)
                    st.pages hbase.1 hbase.2
                  exact hstep (.errored e) _ h1.1 h1.2
        obtain ⟨hpg1, hpg2⟩ := hpg
        exact ⟨hvn', hpg1, (pwork _ hpg1 hpg2).2, hlen'⟩

theorem processWave_inv {scrapeFn : List Char → Except String PageRes}
    {baseUrl : List Char} {opts : CrawlOpts} {m : Int}
    (hm : opts.maxPages = some m) (hm1 : 1 ≤ m) :
    ∀ {urls : List (List Char)} {st st' : CrawlState},
      crawlInv m st →
      processWave scrapeFn baseUrl opts urls st = .ok st' →
      crawlInv m st' := by
  intro urls
  induction urls with
  | nil =>
    intro st st' hinv h
    unfold processWave at h
    injection h with h
    subst h
    exact hinv
  | cons u t ih =>
    intro st st' hinv h
    unfold processWave at h
    cases hu : processUrl scrapeFn baseUrl opts st u with
    | error e => rw [hu] at h; simp at h
    | ok st1 =>
      rw [hu] at h
      exact ih (processUrl_inv hm hm1 hinv hu) h

theorem crawlLoop_inv {scrapeFn : List Char → Except String PageRes}
    {baseUrl : List Char} {opts : CrawlOpts} {m : Int}
    (hm : opts.maxPages = some m) (hm1 : 1 ≤ m) :
    ∀ {fuel : Nat} {st st' : CrawlState} {depth depth' : Nat},
      crawlInv m st →
      crawlLoop scrapeFn baseUrl opts fuel st depth = .ok (some (st', depth')) →
      crawlInv m st' := by
  intro fuel
  induction fuel with
  | zero =>
    intro st st' depth depth' hinv h
    unfold crawlLoop at h
    by_cases hg : crawlGuard opts.maxDepth st.queue depth = true
    · rw [if_pos hg] at h; simp at h
    · rw [if_neg hg] at h
      injection h with h
      injection h with h
      cases h
      exact hinv
  | succ fuel' ih =>
    intro st st' depth depth' hinv h
    unfold crawlLoop at h
    by_cases hg : crawlGuard opts.maxDepth st.queue depth = true
    · rw [if_pos hg] at h
      cases hw : processWave scrapeFn baseUrl opts st.queue
          { st with queue := [] } with
      | error e => rw [hw] at h; simp at h
      | ok st2 =>
        rw [hw] at h
        have hinv1 : crawlInv m ({ st with queue := [] } : CrawlState) := by
          obtain ⟨a, b, c, d⟩ := hinv
          exact ⟨a, b, c, d⟩
        exact ih (processWave_inv hm hm1 hinv1 hw) h
    · rw [if_neg hg] at h
      injection h with h
      injection h with h
      cases h
      exact hinv

/-- Claim C6: with `max_pages = n` (a positive integer), every terminating
crawl returns a `pages` mapping with at most `n` entries: admission rejects
any URL once the visited count reaches `n`, each page entry's key was
visited, and page keys are distinct. -/
theorem C6_max_pages_bound (scrapeFn : List Char → Except String PageRes)
    (url : String) (opts : CrawlOpts) (fuel : Nat) (m : Int) (res : CrawlRes)
    (hm : opts.maxPages = some m)
    (h : crawlModel scrapeFn url opts fuel = .ok (some res)) :
    (res.pages.length : Int) ≤ m := by
  unfold crawlModel at h
  by_cases hv1 : (match opts.maxDepth with
      | some d => decide (d < 0)
      | none => false) = true
  · rw [if_pos hv1] at h; simp at h
  · rw [if_neg hv1] at h
    rw [hm] at h
    by_cases hv2 : decide (m < 1) = true
    · rw [if_pos hv2] at h; simp at h
    · rw [if_neg hv2] at h
      have hm1 : 1 ≤ m := by
        simp only [decide_eq_true_eq] at hv2; omega
      cases hloop : crawlLoop scrapeFn url.data opts fuel
          { visited := [], queue := [url.data], pages := [], totalPages := 0 }
          0 with
      | error e => rw [hloop] at h; simp at h
      | ok o =>
        rw [hloop] at h
        cases o with
        | none => simp at h
        | some p =>
          obtain ⟨st, depth⟩ := p
          dsimp only at h
          injection h with h
          injection h with h
          subst h
          have hinv0 : crawlInv m
              ({ visited := [], queue := [url.data], pages := [],
                 totalPages := 0 } : CrawlState) := by
            refine ⟨List.nodup_nil, List.nodup_nil, ?_, by simp; omega⟩
            intro k hk
            simp [pagesKeys] at hk
          have hinv := crawlLoop_inv hm hm1 hinv0 hloop
          obtain ⟨_, hkn, hsub, hlen⟩ := hinv
          have h1 : st.pages.length = (pagesKeys st.pages).length := by
            simp [pagesKeys]
          have h2 : (pagesKeys st.pages).length ≤ st.visited.length :=
            (hkn.subperm hsub).length_le
          simp only [h1]
          omega

/-- Witness for `C6_max_pages_bound` on a concrete one-page crawl with
`max_pages = 3`. -/
theorem C6_max_pages_witness :
    crawlModel (fun _ => .error "fail") "https://example.com/"
        { maxPages := some 3 } 5 =
      .ok (some { pages := [("https://example.com".data, .errored "fail")],
                  totalPages := 1, depthReached := 0,
                  startUrl := "https://example.com/" }) ∧
    (([( "https://example.com".data, PageEntry.errored "fail")].length : Int)
      ≤ 3) :=
  have he : crawlModel (fun _ => .error "fail") "https://example.com/"
      { maxPages := some 3 } 5 =
    .ok (some { pages := [("https://example.com".data, .errored "fail")],
                totalPages := 1, depthReached := 0,
                startUrl := "https://example.com/" }) := by rfl
  ⟨he, C6_max_pages_bound (fun _ => .error "fail") "https://example.com/"
    { maxPages := some 3 } 5 3
    { pages := [("https://example.com".data, .errored "fail")],
      totalPages := 1, depthReached := 0,
      startUrl := "https://example.com/" } rfl he⟩

/-! ## `Scraper._fetch_url` (scraper.py:170–186)

The retry loop around `session.get`.  Each network attempt's outcome is an
input: success with `(content, final_url, status)`, a retryable failure
(`aiohttp.ClientConnectionError` / `aiohttp.ServerTimeoutError`), or any
other `aiohttp.ClientError`.  The model records the result, the number of
attempts actually made, and the list of `asyncio.sleep(2**attempt)` delays
performed. -/

inductive FetchAttempt where
  | ok (content finalUrl : String) (status : Int)
  | connErr (msg : String)
  | clientErr (msg : String)
deriving Repr

structure FetchOutcome where
  result : Except String (String × String × Int)
  attemptsMade : Nat
  sleeps : List Nat

/-- The `for attempt in range(max_retries)` loop; `rem` counts the
iterations the range still holds (`attempt + rem = max_retries` at entry). -/
def fetchLoop (att : Nat → FetchAttempt) (url : String) (maxRetries : Nat) :
    Nat → Nat → List Nat → FetchOutcome
  | attempt, 0, sleeps =>
    -- the loop fell through: `raise ScraperError(f"Failed to fetch ...")`
    ⟨.error ("Failed to fetch " ++ url ++ " after " ++ toString maxRetries ++
      " attempts"), attempt, sleeps⟩
  | attempt, rem + 1, sleeps =>
    match att attempt with
    | .ok c f s => ⟨.ok (c, f, s), attempt + 1, sleeps⟩
    | .connErr e =>
      if attempt = maxRetries - 1 then
        ⟨.error ("Connection error after " ++ toString maxRetries ++
          " attempts: " ++ e), attempt + 1, sleeps⟩
      else
        fetchLoop att url maxRetries (attempt + 1) rem (sleeps ++ [2 ^ attempt])
    | .clientErr e => ⟨.error ("Client error: " ++ e), attempt + 1, sleeps⟩

/-- `Scraper._fetch_url(url, max_retries, proxy)` (the proxy only decorates
the request; it does not change the control flow modelled here). -/
def fetchUrlModel (att : Nat → FetchAttempt) (url : String)
    (maxRetries : Nat) : FetchOutcome :=
  fetchLoop att url maxRetries 0 maxRetries []

theorem fetchLoop_all_conn (att : Nat → FetchAttempt) (url : String)
    (n : Nat) (msgs : Nat → String)
    (hatt : ∀ i, att i = FetchAttempt.connErr (msgs i)) :
    ∀ rem attempt sleeps, attempt + rem = n → 1 ≤ rem →
      fetchLoop att url n attempt rem sleeps =
        ⟨.error ("Connection error after " ++ toString n ++ " attempts: " ++
          msgs (n - 1)), n,
         sleeps ++ (List.range (rem - 1)).map (fun j => 2 ^ (attempt + j))⟩ := by
  intro rem
  induction rem with
  | zero => intro attempt sleeps _ h2; omega
  | succ r ih =>
    intro attempt sleeps h1 _
    rw [fetchLoop, hatt attempt]
    dsimp only
    cases r with
    | zero =>
      have he : attempt = n - 1 := by omega
      rw [if_pos he]
      have : attempt + 1 = n := by omega
      simp [this, he]
      omega
    | succ r' =>
      have hne : ¬(attempt = n - 1) := by omega
      rw [if_neg hne]
      rw [ih (attempt + 1) (sleeps ++ [2 ^ attempt]) (by omega) (by omega)]
      have hr : (List.range (r' + 1)).map (fun j => 2 ^ (attempt + j)) =
          2 ^ attempt :: (List.range r').map (fun j => 2 ^ (attempt + 1 + j)) := by
        rw [List.range_succ_eq_map, List.map_cons, List.map_map]
        simp only [Nat.add_zero]
        have hfg : ((fun j => 2 ^ (attempt + j)) ∘ Nat.succ) =
            (fun j => 2 ^ (attempt + 1 + j)) := by
          funext j
          show 2 ^ (attempt + (j + 1)) = 2 ^ (attempt + 1 + j)
          congr 1
          omega
        rw [hfg]
      simp only [Nat.succ_sub_one]
      rw [hr]
      simp

theorem fetchLoop_client (att : Nat → FetchAttempt) (url : String) (n : Nat)
    (e : String) :
    ∀ k attempt rem sleeps, attempt + rem = n → attempt + k < n →
      (∀ j, j < k → ∃ m, att (attempt + j) = .connErr m) →
      att (attempt + k) = .clientErr e →
      fetchLoop att url n attempt rem sleeps =
        ⟨.error ("Client error: " ++ e), attempt + k + 1,
         sleeps ++ (List.range k).map (fun j => 2 ^ (attempt + j))⟩ := by
  intro k
  induction k with
  | zero =>
    intro attempt rem sleeps h1 h2 _ hc
    cases rem with
    | zero => omega
    | succ r =>
      rw [fetchLoop]
      rw [show attempt + 0 = attempt from rfl] at hc
      rw [hc]
      simp
  | succ k' ih =>
    intro attempt rem sleeps h1 h2 hpre hc
    cases rem with
    | zero => omega
    | succ r =>
      obtain ⟨m, hm⟩ := hpre 0 (by omega)
      rw [show attempt + 0 = attempt from rfl] at hm
      rw [fetchLoop, hm]
      dsimp only
      have hne : ¬(attempt = n - 1) := by omega
      rw [if_neg hne]
      have hc' : att (attempt + 1 + k') = .clientErr e := by
        rw [show attempt + 1 + k' = attempt + (k' + 1) from by omega]
        exact hc
      have hpre' : ∀ j, j < k' → ∃ m, att (attempt + 1 + j) = .connErr m := by
        intro j hj
        obtain ⟨m2, hm2⟩ := hpre (j + 1) (by omega)
        exact ⟨m2, by rw [show attempt + 1 + j = attempt + (j + 1) from by omega]; exact hm2⟩
      rw [ih (attempt + 1) r (sleeps ++ [2 ^ attempt]) (by omega) (by omega)
        hpre' hc']
      have hr : (List.range (k' + 1)).map (fun j => 2 ^ (attempt + j)) =
          2 ^ attempt :: (List.range k').map (fun j => 2 ^ (attempt + 1 + j)) := by
        rw [List.range_succ_eq_map, List.map_cons, List.map_map]
        simp only [Nat.add_zero]
        have hfg : ((fun j => 2 ^ (attempt + j)) ∘ Nat.succ) =
            (fun j => 2 ^ (attempt + 1 + j)) := by
          funext j
          show 2 ^ (attempt + (j + 1)) = 2 ^ (attempt + 1 + j)
          congr 1
          omega
        rw [hfg]
      rw [hr]
      have hat : attempt + 1 + k' + 1 = attempt + (k' + 1) + 1 := by omega
      rw [hat]
      simp

/-- Claim C5: direct-mode fetch retries only on connection/timeout failure,
sleeping `2**attempt` seconds between attempts.  (1) With two forced
timeouts followed by a success and `max_retries = 3`, it returns the
successful content using exactly 3 attempts, having slept `[1, 2]` seconds.
(2) When every attempt fails with a retryable error it fails with the
`"Connection error after N attempts"` (retryable-exhausted) error after
exactly `max_retries` attempts and the full backoff schedule.  (3) Any
other client-level error at attempt `k` fails immediately as
`"Client error: ..."` with no further attempts and no further sleeps. -/
theorem C5_fetch_retry :
    (∀ (e0 e1 c f : String) (s : Int) (url : String),
      fetchUrlModel (fun i => if i = 0 then .connErr e0
        else if i = 1 then .connErr e1 else .ok c f s) url 3 =
        ⟨.ok (c, f, s), 3, [1, 2]⟩) ∧
    (∀ (msgs : Nat → String) (url : String) (n : Nat), 1 ≤ n →
      fetchUrlModel (fun i => .connErr (msgs i)) url n =
        ⟨.error ("Connection error after " ++ toString n ++ " attempts: " ++
          msgs (n - 1)), n, (List.range (n - 1)).map (fun j => 2 ^ j)⟩) ∧
    (∀ (att : Nat → FetchAttempt) (url e : String) (n k : Nat), k < n →
      (∀ j, j < k → ∃ m, att j = .connErr m) → att k = .clientErr e →
      fetchUrlModel att url n =
        ⟨.error ("Client error: " ++ e), k + 1,
         (List.range k).map (fun j => 2 ^ j)⟩) := by
  refine ⟨?_, ?_, ?_⟩
  · intro e0 e1 c f s url
    rfl
  · intro msgs url n hn
    unfold fetchUrlModel
    rw [fetchLoop_all_conn (fun i => .connErr (msgs i)) url n msgs
      (fun i => rfl) n 0 [] (by omega) hn]
    simp
  · intro att url e n k hk hpre hc
    unfold fetchUrlModel
    rw [fetchLoop_client att url n e k 0 n [] (by omega) (by omega)
      (fun j hj => by simpa using hpre j hj) (by simpa using hc)]
    simp

/-- Witness instantiating `C5_fetch_retry` at concrete inputs: the
retry-then-succeed schedule (first conjunct) and an immediate client error
(third conjunct, its hypotheses discharged concretely). -/
theorem C5_fetch_retry_witness :
    (fetchUrlModel (fun i => if i = 0 then .connErr "t0"
      else if i = 1 then .connErr "t1" else .ok "body" "http://u/f" 200)
      "http://u" 3 =
      ⟨.ok ("body", "http://u/f", 200), 3, [1, 2]⟩) ∧
    fetchUrlModel (fun _ => .clientErr "oops") "http://u" 3 =
      ⟨.error "Client error: oops", 1, []⟩ :=
  ⟨C5_fetch_retry.1 "t0" "t1" "body" "http://u/f" 200 "http://u",
   C5_fetch_retry.2.2 (fun _ => .clientErr "oops") "http://u" "oops" 3 0
     (by decide) (fun j hj => absurd hj (by omega)) rfl⟩

/-! ## `Scraper._clean_markdown` (scraper.py:49–96)

A faithful executable embedding of the cleanup pass.  Each `re.sub` is
implemented as a scanner plus a pattern-specific backtracking matcher that
reproduces the Python regex semantics exactly on ASCII input, including
the multiline anchors and the fact that `\s` crosses newlines (so e.g. the
header fix can swallow blank lines after a heading).  `\s` and `str.strip`
are modelled on ASCII whitespace (the regexes also match exotic Unicode
whitespace, which no claim exercises). -/

/-- ASCII `\s` / `str.strip()` whitespace. -/
def isPySpace (c : Char) : Bool :=
  c = ' ' || c = '\t' || c = '\n' || c = '\r' || c = '\x0b' || c = '\x0c'

/-- Python `str.strip()` (ASCII whitespace). -/
def pyStrip (s : List Char) : List Char :=
  ((s.dropWhile isPySpace).reverse.dropWhile isPySpace).reverse

/-- `re.sub(r"\r\n?", "\n", s)`: every `\r\n` pair and every lone `\r`
becomes `\n` (non-overlapping, left to right). -/
def normalizeCRLF : List Char → List Char
  | [] => []
  | '\r' :: '\n' :: t => '\n' :: normalizeCRLF t
  | '\r' :: t => '\n' :: normalizeCRLF t
  | c :: t => c :: normalizeCRLF t

/-- `str.rstrip` of spaces and tabs (one line). -/
def rstripSpTab (s : List Char) : List Char :=
  (s.reverse.dropWhile (fun c => c = ' ' || c = '\t')).reverse

/-- `re.sub(r"[ \t]+$", "", s, flags=re.MULTILINE)`: the pattern matches
exactly the maximal run of trailing blanks of each line. -/
def stripTrailingBlanks (s : List Char) : List Char :=
  List.intercalate ['\n'] ((splitOnChar '\n' s).map rstripSpTab)

theorem length_dropWhile_le (p : Char → Bool) (l : List Char) :
    (l.dropWhile p).length ≤ l.length := by
  induction l with
  | nil => simp
  | cons c t ih =>
    rw [List.dropWhile_cons]
    by_cases h : p c = true
    · rw [if_pos h]
      exact Nat.le_trans ih (by simp)
    · rw [if_neg h]

/-- First hit of `f` over a candidate list (the backtracking search). -/
def firstSome {α β : Type} (f : α → Option β) : List α → Option β
  | [] => none
  | a :: t =>
    match f a with
    | some b => some b
    | none => firstSome f t

/--
`re.sub` driver for a pattern anchored at `^` (MULTILINE): a match is
attempted at the string start and after every `\n`; on a match the
replacement is emitted and scanning resumes after the consumed text (whose
last character decides whether the next position is a line start).  All
the anchored patterns below consume at least one character; `max n 1`
makes that progress explicit for termination.
-/
def scanAnchoredGo (matchAt : List Char → Option (Nat × List Char)) :
    Nat → Bool → List Char → List Char
  | 0, _, s => s
  | fuel + 1, atStart, s =>
    match s with
    | [] => []
    | c :: rest =>
      if atStart then
        match matchAt s with
        | some (n, rep) =>
          rep ++ scanAnchoredGo matchAt fuel
            (s.getD (max n 1 - 1) 'x' = '\n') (s.drop (max n 1))
        | none => c :: scanAnchoredGo matchAt fuel (c = '\n') rest
      else c :: scanAnchoredGo matchAt fuel (c = '\n') rest

def scanAnchored (matchAt : List Char → Option (Nat × List Char))
    (atStart : Bool) (s : List Char) : List Char :=
  scanAnchoredGo matchAt s.length atStart s

/-- `re.sub` driver for an unanchored pattern: a match is attempted at
every position. -/
def scanAllGo (matchAt : List Char → Option (Nat × List Char)) :
    Nat → List Char → List Char
  | 0, s => s
  | fuel + 1, s =>
    match s with
    | [] => []
    | c :: rest =>
      match matchAt s with
      | some (n, rep) => rep ++ scanAllGo matchAt fuel (s.drop (max n 1))
      | none => c :: scanAllGo matchAt fuel rest

def scanAll (matchAt : List Char → Option (Nat × List Char))
    (s : List Char) : List Char :=
  scanAllGo matchAt s.length s

/-- Matcher for `^(#+)\s*(.+?)[\s#]*$` with replacement `\1 \2`.
Backtracking order: `(#+)` greedy, `\s*` greedy (and it may cross
newlines), `(.+?)` lazy over non-newline characters, `[\s#]*` greedy, then
the MULTILINE `$` (end of string or before a `\n`). -/
def headerMatch (s : List Char) : Option (Nat × List Char) :=
  let hmax := (s.takeWhile (fun c => c = '#')).length
  firstSome (fun h =>
    let s1 := s.drop h
    let wmax := (s1.takeWhile isPySpace).length
    firstSome (fun wi =>
      let w := wmax - wi
      let s2 := s1.drop w
      let dmax := (s2.takeWhile (fun c => !(c = '\n'))).length
      firstSome (fun tloc =>
        let t := tloc + 1
        let s3 := s2.drop t
        let kmax := (s3.takeWhile (fun c => isPySpace c || c = '#')).length
        firstSome (fun ki =>
          let k := kmax - ki
          let s4 := s3.drop k
          if s4 = [] ∨ s4.headD 'x' = '\n' then
            some (h + w + t + k, List.replicate h '#' ++ ' ' :: s2.take t)
          else none)
          (List.range (kmax + 1)))
        (List.range dmax))
      (List.range (wmax + 1)))
    ((List.range hmax).reverse.map (fun i => i + 1))

/-- Matcher for `^"(.+?)"$` with replacement `> \1` (line-local: `.` does
not match `\n` and both the closing quote and `$` pin the line end). -/
def quoteMatch (s : List Char) : Option (Nat × List Char) :=
  match s with
  | '"' :: rest =>
    let dmax := (rest.takeWhile (fun c => !(c = '\n'))).length
    firstSome (fun tloc =>
      let t := tloc + 1
      if rest.getD t 'x' = '"' ∧
          (rest.drop (t + 1) = [] ∨ (rest.drop (t + 1)).headD 'x' = '\n') then
        some (1 + t + 1, '>' :: ' ' :: rest.take t)
      else none)
      (List.range dmax)
  | _ => none

/-- Matcher for `^by\s+(.+?)\s*$` with replacement `By \1` (`\s` may cross
newlines on both sides of the group). -/
def byMatch (s : List Char) : Option (Nat × List Char) :=
  match s with
  | 'b' :: 'y' :: rest =>
    let wmax := (rest.takeWhile isPySpace).length
    firstSome (fun wi =>
      let w := wmax - wi
      if w = 0 then none
      else
        let s2 := rest.drop w
        let dmax := (s2.takeWhile (fun c => !(c = '\n'))).length
        firstSome (fun tloc =>
          let t := tloc + 1
          let s3 := s2.drop t
          let kmax := (s3.takeWhile isPySpace).length
          firstSome (fun ki =>
            let k := kmax - ki
            let s4 := s3.drop k
            if s4 = [] ∨ s4.headD 'x' = '\n' then
              some (2 + w + t + k, 'B' :: 'y' :: ' ' :: s2.take t)
            else none)
            (List.range (kmax + 1)))
          (List.range dmax))
      (List.range (wmax + 1))
  | _ => none

/-- Matcher for `^\s*[-*+]\s*(.+)$` with replacement `- \1`.  The greedy
`(.+)` forces the group to run to the line end, so only the maximal
non-newline run can match. -/
def listMatch (s : List Char) : Option (Nat × List Char) :=
  let w1max := (s.takeWhile isPySpace).length
  firstSome (fun w1i =>
    let w1 := w1max - w1i
    match s.drop w1 with
    | m :: rest =>
      if m = '-' ∨ m = '*' ∨ m = '+' then
        let w2max := (rest.takeWhile isPySpace).length
        firstSome (fun w2i =>
          let w2 := w2max - w2i
          let s2 := rest.drop w2
          let dmax := (s2.takeWhile (fun c => !(c = '\n'))).length
          if 1 ≤ dmax then
            some (w1 + 1 + w2 + dmax, '-' :: ' ' :: s2.take dmax)
          else none)
          (List.range (w2max + 1))
      else none
    | [] => none)
    (List.range (w1max + 1))

/-- Matcher for `\[(.*?)\]\(([^)]+)\)` with the whitespace-stripping lambda
replacement.  `(.*?)` is lazy over non-newline characters; `([^)]+)` is
greedy and may cross newlines. -/
def linkMatch (s : List Char) : Option (Nat × List Char) :=
  match s with
  | '[' :: rest =>
    let dmax := (rest.takeWhile (fun c => !(c = '\n'))).length
    firstSome (fun t =>
      if rest.getD t 'x' = ']' ∧ rest.getD (t + 1) 'x' = '(' then
        let s2 := rest.drop (t + 2)
        let gmax := (s2.takeWhile (fun c => !(c = ')'))).length
        if 1 ≤ gmax ∧ s2.getD gmax 'x' = ')' then
          some (1 + t + 2 + gmax + 1,
            '[' :: pyStrip (rest.take t) ++ ']' :: '(' ::
              pyStrip (s2.take gmax) ++ [')'])
        else none
      else none)
      (List.range (dmax + 1))
  | _ => none

/-- Python `s.split("\n\n")` (non-overlapping, left to right). -/
def splitNN : List Char → List (List Char)
  | [] => [[]]
  | '\n' :: '\n' :: t => [] :: splitNN t
  | c :: t =>
    match splitNN t with
    | h :: r => (c :: h) :: r
    | [] => [[c]]

/-- The per-section cleanup (scraper.py:71–87): skip blank sections, strip
every line and drop blank lines, and inside a section containing a `>`
quote line put a blank line before each `By ` attribution line. -/
def sectionClean (sect : List Char) : Option (List Char) :=
  if pyStrip sect = [] then none
  else
    let lines := ((splitOnChar '\n' sect).map pyStrip).filter
      (fun l => l ≠ [])
    if lines.any (fun l => l.take 1 = ['>']) then
      some (List.intercalate ['\n'] (lines.map (fun l =>
        if l.take 1 = ['>'] then l
        else if "By ".data.isPrefixOf l then '\n' :: l
        else l)))
    else some (List.intercalate ['\n'] lines)

/-- The section pass: split on `"\n\n"`, clean each section, re-join with
`"\n\n"`. -/
def sectionsPass (s : List Char) : List Char :=
  List.intercalate ['\n', '\n'] ((splitNN s).filterMap sectionClean)

/-- `re.sub(r"\n{3,}", "\n\n", s)`: collapse every maximal run of three or
more newlines to exactly two. -/
def collapseGo (pending : Nat) : List Char → List Char
  | [] => if 3 ≤ pending then ['\n', '\n'] else List.replicate pending '\n'
  | c :: t =>
    if c = '\n' then collapseGo (pending + 1) t
    else
      (if 3 ≤ pending then ['\n', '\n'] else List.replicate pending '\n') ++
        c :: collapseGo 0 t

def collapseNewlines (s : List Char) : List Char := collapseGo 0 s

/-- `Scraper._clean_markdown` (scraper.py:49–96), the full pipeline. -/
def cleanMarkdown (markdown : String) : String :=
  let s1 := normalizeCRLF markdown.data
  let s2 := stripTrailingBlanks s1
  let s3 := scanAnchored headerMatch true s2
  let s4 := scanAnchored quoteMatch true s3
  let s5 := scanAnchored byMatch true s4
  let s6 := scanAnchored listMatch true s5
  let s7 := scanAll linkMatch s6
  let s8 := sectionsPass s7
  ⟨pyStrip (collapseNewlines s8)⟩

-- sanity checks against the CPython regex semantics
theorem clean_sanity_header : cleanMarkdown "##Title##" = "## Title" := by rfl

theorem clean_sanity_quote_by :
    cleanMarkdown "\"q\"\nby me" = "> q\n\nBy me" := by rfl

theorem clean_sanity_bullets :
    cleanMarkdown "* item\n+ other\n  - third" = "- item\n- other\n- third" := by rfl

theorem clean_sanity_links :
    cleanMarkdown "text [ a ]( b )" = "text [a](b)" := by rfl

theorem clean_sanity_blank_runs :
    cleanMarkdown "x\n\n\n\n\ny" = "x\n\ny" := by rfl

/-- Claim C8: the markdown cleanup pass is **not** idempotent, though the
spec requires `clean(clean(markdown)) == clean(markdown)`.  On `" #a"` the
first pass leaves `"#a"` untouched (the header regex `^(#+)...` does not
fire on an indented heading; the line is only stripped by the later
section pass), while the second pass sees the now-unindented heading and
rewrites it to `"# a"`. -/
theorem C8_clean_not_idempotent :
    cleanMarkdown " #a" = "#a" ∧ cleanMarkdown "#a" = "# a" ∧
      ("# a" : String) ≠ "#a" :=
  ⟨by rfl, by rfl, by decide⟩

/-! ## `Scraper._extract_metadata` (scraper.py:98–168)

One `try` block wraps the whole field sequence (base, title, language,
description, keywords, viewport, canonical, Open Graph, Twitter,
schema.org); only the JSON-LD blocks have a per-block inner `try`.  Each
field lookup against the soup is an input step that either yields its
value or raises; the surrounding `except` only logs, so a failure aborts
the *remaining* fields while keeping everything assigned so far. -/

inductive FStep (α : Type) where
  | ok (a : α)
  | exc (msg : String)
deriving Repr

/-- Outcome of `json.loads` on one `application/ld+json` block. -/
inductive SchemaParsed where
  | dictV (payload : String)
  | listV (items : List String)
  | otherV
deriving Repr, DecidableEq

/-- The per-field outcomes `_extract_metadata` reads off the soup. -/
structure MetaEnv where
  baseHref : FStep (Option String)
  titleText : FStep (Option String)
  htmlLang : FStep (Option String)
  descContent : FStep (Option String)
  keywordsContent : FStep (Option String)
  viewportContent : FStep (Option String)
  canonicalHref : FStep (Option String)
  ogProps : FStep (List (String × String))
  twitterMetas : FStep (List (String × String))
  schemaBlocks : FStep (List (Except String SchemaParsed))

/-- Python dict assignment `d[k] = v` on a string-keyed dict. -/
def strDictInsert (k v : String) :
    List (String × String) → List (String × String)
  | [] => [(k, v)]
  | (k', v') :: t => if k' = k then (k, v) :: t else (k', v') :: strDictInsert k v t

/-- The Open Graph loop (scraper.py:142–147): key is
`prop["property"][3:].lower()`, and an `og:type` also sets `page_type`. -/
def ogFold : List (String × String) → MetaRec → MetaRec
  | [], md => md
  | (p, c) :: t, md =>
    let key : String := ⟨pyLower (p.data.drop 3)⟩
    let cv : String := ⟨pyStrip c.data⟩
    let md1 := { md with og_data := strDictInsert key cv md.og_data }
    ogFold t (if key = "type" then { md1 with page_type := cv } else md1)

/-- The Twitter loop (scraper.py:149–152): key is `meta["name"][8:].lower()`. -/
def twFold : List (String × String) → MetaRec → MetaRec
  | [], md => md
  | (p, c) :: t, md =>
    let tw := strDictInsert ⟨pyLower (p.data.drop 8)⟩ ⟨pyStrip c.data⟩
      md.twitter_data
    twFold t { md with twitter_data := tw }

/-- The JSON-LD loop (scraper.py:154–164): the first block parsing as a dict
(or a non-empty list, taking its head) wins; malformed or other-typed blocks
are skipped without aborting. -/
def schemaFold : List (Except String SchemaParsed) → MetaRec → MetaRec
  | [], md => md
  | b :: t, md =>
    match b with
    | .error _ => schemaFold t md
    | .ok (.dictV p) => { md with schema_org := .objVal p }
    | .ok (.listV (x :: _)) => { md with schema_org := .objVal x }
    | .ok (.listV []) => schemaFold t md
    | .ok .otherV => schemaFold t md

/-- The defaults dict built at scraper.py:100–115 (before the `try`). -/
def metaDefaults (url finalUrl : String) (status : Int) (now : String) :
    MetaRec :=
  { source_url := url, final_url := some finalUrl, status := .code status,
    retrieved_at := now }

/-- `Scraper._extract_metadata(soup, url, final_url, status)`.  The single
`except Exception` around the field sequence only logs, so the first
failing step ends the function with the metadata collected so far. -/
def extractMetadata (env : MetaEnv) (url finalUrl : String) (status : Int)
    (now : String) : MetaRec :=
  let md0 := metaDefaults url finalUrl status now
  match env.baseHref with
  | .exc _ => md0
  | .ok bh =>
    -- `base_url = urljoin(final_url, base_tag["href"]) if base_tag else final_url`
    let baseE : Except String String :=
      match bh with
      | some href =>
        match urljoinAux finalUrl.data href.data with
        | .error e => .error e
        | .ok l => .ok ⟨l⟩
      | none => .ok finalUrl
    match baseE with
    | .error _ => md0
    | .ok baseUrl =>
      match env.titleText with
      | .exc _ => md0
      | .ok tt =>
        let md1 := { md0 with title := tt.getD "" }
        match env.htmlLang with
        | .exc _ => md1
        | .ok lg =>
          -- `html_tag.get("lang", "").lower()[:5] if html_tag else ""`
          let md2 := { md1 with language :=
            match lg with
            | some l => (⟨(pyLower l.data).take 5⟩ : String)
            | none => "" }
          match env.descContent with
          | .exc _ => md2
          | .ok dc =>
            let md3 := { md2 with description :=
              match dc with
              | some d => (⟨pyStrip d.data⟩ : String)
              | none => "" }
            match env.keywordsContent with
            | .exc _ => md3
            | .ok kw =>
              let md4 := match kw with
                | some k =>
                  { md3 with keywords := some (⟨pyStrip k.data⟩ : String) }
                | none => md3
              match env.viewportContent with
              | .exc _ => md4
              | .ok vp =>
                let md5 := match vp with
                  | some v =>
                    { md4 with viewport := some (⟨pyStrip v.data⟩ : String) }
                  | none => md4
                match env.canonicalHref with
                | .exc _ => md5
                | .ok ch =>
                  -- `if canonical and canonical.get("href")` (href truthy)
                  let canE : Except String MetaRec :=
                    match ch with
                    | some href =>
                      if href ≠ "" then
                        match urljoinAux baseUrl.data href.data with
                        | .error e => .error e
                        | .ok j => .ok { md5 with cannonical := (⟨j⟩ : String) }
                      else .ok md5
                    | none => .ok md5
                  match canE with
                  | .error _ => md5
                  | .ok md6 =>
                    match env.ogProps with
                    | .exc _ => md6
                    | .ok og =>
                      let md7 := ogFold og md6
                      match env.twitterMetas with
                      | .exc _ => md7
                      | .ok tw =>
                        let md8 := twFold tw md7
                        match env.schemaBlocks with
                        | .exc _ => md8
                        | .ok bl => schemaFold bl md8

/-- The metadata environment of the C9 counterexample: the title lookup
raises while every other field would extract fine. -/
def c9Env : MetaEnv :=
  { baseHref := .ok none, titleText := .exc "boom",
    htmlLang := .ok (some "EN-us"), descContent := .ok (some " d "),
    keywordsContent := .ok none, viewportContent := .ok none,
    canonicalHref := .ok none, ogProps := .ok [("og:type", "article")],
    twitterMetas := .ok [], schemaBlocks := .ok [] }

/-- Claim C9, counterexample: metadata extraction is *not* best-effort per
field.  In `c9Env` only the title lookup fails, yet the description — whose
own extraction succeeds with `"d"` — stays at its default `""`, and the
Open Graph data is dropped too: the single `try` block aborts every field
after the failing one. -/
theorem C9_counterexample :
    (extractMetadata c9Env "http://u" "http://u" 200 "now").description = "" ∧
    (extractMetadata c9Env "http://u" "http://u" 200 "now").og_data = [] ∧
    ¬((extractMetadata c9Env "http://u" "http://u" 200 "now").description
        = "d") :=
  ⟨by rfl, by rfl, by decide⟩

/-- Claim C9 (amended): metadata extraction is best-effort per *document*,
not per field: a failing field lookup never propagates an exception, the
fields extracted **before** the failure keep their values and the failing
field and everything after it keep their defaults; only the JSON-LD blocks
are skipped per-block.  Concretely: (1) a title failure (the first field)
leaves all fields at their defaults; (2) a canonical failure keeps
title/language/description but resets og/twitter/schema to defaults;
(3) a malformed JSON-LD block is skipped and a later dict block still
lands in `schema_org`. -/
theorem C9_metadata_per_document_amended :
    (∀ (env : MetaEnv) (url f now m : String) (st : Int),
      env.baseHref = .ok none → env.titleText = .exc m →
      extractMetadata env url f st now = metaDefaults url f st now) ∧
    (∀ (env : MetaEnv) (url f now m t : String) (st : Int),
      env.baseHref = .ok none → env.titleText = .ok (some t) →
      env.htmlLang = .ok none → env.descContent = .ok (some t) →
      env.keywordsContent = .ok none → env.viewportContent = .ok none →
      env.canonicalHref = .exc m →
      extractMetadata env url f st now =
        { metaDefaults url f st now with
            title := t, description := (⟨pyStrip t.data⟩ : String) }) ∧
    (∀ (env : MetaEnv) (url f now m p : String) (st : Int),
      env.baseHref = .ok none → env.titleText = .ok none →
      env.htmlLang = .ok none → env.descContent = .ok none →
      env.keywordsContent = .ok none → env.viewportContent = .ok none →
      env.canonicalHref = .ok none → env.ogProps = .ok [] →
      env.twitterMetas = .ok [] →
      env.schemaBlocks = .ok [.error m, .ok (.dictV p)] →
      (extractMetadata env url f st now).schema_org = .objVal p) := by
  refine ⟨?_, ?_, ?_⟩
  · intro env url f now m st h1 h2
    unfold extractMetadata
    rw [h1, h2]
  · intro env url f now m t st h1 h2 h3 h4 h5 h6 h7
    unfold extractMetadata
    rw [h1, h2, h3, h4, h5, h6, h7]
    rfl
  · intro env url f now m p st h1 h2 h3 h4 h5 h6 h7 h8 h9 h10
    unfold extractMetadata
    rw [h1, h2, h3, h4, h5, h6, h7, h8, h9, h10]
    rfl

/-- Witness for `C9_metadata_per_document_amended` (first conjunct) on the
concrete environment `c9Env`, whose title lookup raises. -/
theorem C9_metadata_per_document_amended_witness :
    extractMetadata c9Env "http://u" "http://u" 200 "now" =
      metaDefaults "http://u" "http://u" 200 "now" :=
  C9_metadata_per_document_amended.1 c9Env "http://u" "http://u" "now" "boom"
    200 rfl rfl

/-! ## `Scraper.scrape` (scraper.py:257–356)

The page-level orchestrator.  The external effects are the inputs: the
fetch outcome (`_fetch_url` / `_fetch_url_browser`, an exception carried as
its message), the `BeautifulSoup` parse together with the tag-exclusion and
main-content steps (scraper.py:298–312), the metadata field lookups
(`MetaEnv`), the `markdownify` call, the rendered html / extracted text of
the soup, and the anchor list.  Everything else — the result skeleton, the
`if not content` check, the inner `except Exception` handler at
scraper.py:334–338 that writes `metadata["error"]` and empties `content`,
the `include_links` loop — is the source's logic.  The initial metadata
dict of scraper.py:263–270 holds the `MetaRec` defaults for its keys, and
its missing keys are the record's default values. -/

/-- The `page_options` keys that steer the modelled control flow
(`use_browser`/`proxy`/`max_retries` are folded into the fetch input,
`exclude_tags`/`extract_main_content` into the parse input). -/
structure PageOpts where
  clean_markdown : Bool := true
  include_links : Bool := false
deriving Repr

/-- The stage outcomes `scrape` reads off the outside world for one page. -/
structure ScrapeEnv where
  fetchRes : FStep (String × String × Int)
  parse : FStep Unit
  meta : MetaEnv
  htmlStr : String
  mdify : FStep String
  textStr : String
  anchors : FStep (List (String × String × Bool))

/-- The inner `except Exception` handler (scraper.py:334–338): the message
lands under `metadata["error"]`, `content` is emptied, and the top-level
`error` field of the result is left untouched. -/
def contentFail (r : PageRes) (e : String) : PageRes :=
  { r with
      metadata :=
        { r.metadata with error := some ("Content processing failed: " ++ e) },
      content := [] }

/-- `Scraper._generate_formats` (scraper.py:235–255): build the requested
formats in `markdown`, `html`, `text` insertion order; a `markdownify`
exception propagates to the caller; the `text` branch collapses `\n{3,}`
runs and strips. -/
def generateFormats (htmlStr : String) (mdifyRes : FStep String)
    (textStr : String) (formats : List String) (cleanMd : Bool) :
    FStep (List (String × String)) :=
  match (if formats.contains "markdown" then
           match mdifyRes with
           | .exc m => FStep.exc m
           | .ok md0 =>
             FStep.ok [("markdown", if cleanMd then cleanMarkdown md0 else md0)]
         else FStep.ok []) with
  | .exc m => .exc m
  | .ok r1 =>
    let r2 :=
      if formats.contains "html" then r1 ++ [("html", htmlStr)] else r1
    .ok (if formats.contains "text" then
           r2 ++ [("text",
             (⟨pyStrip (collapseNewlines textStr.data)⟩ : String))]
         else r2)

/-- The `include_links` loop (scraper.py:322–331): each anchor
`(text, href, nofollow)` is resolved with `urljoin(final_url, href)`; a
resolution failure stops the loop keeping the links already appended (the
surrounding handler catches it). -/
def scrapeLinkLoop (finalUrl : String) :
    List (String × String × Bool) → List LinkRec →
      List LinkRec × Option String
  | [], acc => (acc, none)
  | (t, href, nf) :: rest, acc =>
    match urljoinAux finalUrl.data href.data with
    | .error e => (acc, some e)
    | .ok j => scrapeLinkLoop finalUrl rest (acc ++ [⟨t, ⟨j⟩, nf⟩])

/-- `Scraper.scrape(url, formats, page_options)` (scraper.py:257–356).
`formats0 = []` models the `None` default (`formats or ["markdown"]`);
`content = ""` models `if not content`.  Every stage failure is caught by
the inner handler (`contentFail`); the outer `except ScraperError` /
`except Exception` handlers at scraper.py:341–356 are unreachable, so the
function is total and the result's `error` field is never set. -/
def scrapeModel (env : ScrapeEnv) (url : String) (formats0 : List String)
    (opts : PageOpts) (now : String) : PageRes :=
  let formats := if formats0 = [] then ["markdown"] else formats0
  let r0 : PageRes := { metadata := { source_url := url, retrieved_at := now } }
  match env.fetchRes with
  | .exc e => contentFail r0 e
  | .ok (content, finalUrl, status) =>
    let r1 := { r0 with
      metadata := { r0.metadata with
        status := StatusV.code status, final_url := some finalUrl } }
    if content = "" then
      contentFail r1 "No content retrieved from the URL."
    else
      match env.parse with
      | .exc e => contentFail r1 e
      | .ok _ =>
        -- `result["metadata"].update(metadata)`: `_extract_metadata`
        -- returns a superset of the keys present so far, so the update
        -- replaces the metadata wholesale
        let r2 := { r1 with
          metadata := extractMetadata env.meta url finalUrl status now }
        match generateFormats env.htmlStr env.mdify env.textStr formats
          opts.clean_markdown with
        | .exc e => contentFail r2 e
        | .ok cf =>
          if cf = [] then contentFail r2 "Failed to generate content formats"
          else
            let r3 := { r2 with content := cf }
            if opts.include_links then
              match env.anchors with
              | .exc e => contentFail r3 e
              | .ok ancs =>
                match scrapeLinkLoop finalUrl ancs [] with
                | (ls, some e) => contentFail { r3 with links := ls } e
                | (ls, none) => { r3 with links := ls, jsonSet := true }
            else { r3 with jsonSet := true }

/-- A metadata environment on which every field lookup succeeds vacuously. -/
def mEnvTriv : MetaEnv :=
  { baseHref := .ok none, titleText := .ok none, htmlLang := .ok none,
    descContent := .ok none, keywordsContent := .ok none,
    viewportContent := .ok none, canonicalHref := .ok none,
    ogProps := .ok [], twitterMetas := .ok [], schemaBlocks := .ok [] }

/-- `scrape` never sets the top-level `error` field: every exception inside
the page is caught by the inner handler, which records the message under
`metadata["error"]` only. -/
theorem scrapeModel_error_none (env : ScrapeEnv) (url : String)
    (fs : List String) (opts : PageOpts) (now : String) :
    (scrapeModel env url fs opts now).error = none := by
  unfold scrapeModel
  dsimp only
  cases henv : env.fetchRes with
  | exc e => rfl
  | ok v =>
    obtain ⟨c, f, st⟩ := v
    dsimp only
    by_cases hc : c = ""
    · rw [if_pos hc]
      rfl
    · rw [if_neg hc]
      cases hp : env.parse with
      | exc e => rfl
      | ok u =>
        dsimp only
        cases hg : generateFormats env.htmlStr env.mdify env.textStr
            (if fs = [] then ["markdown"] else fs) opts.clean_markdown with
        | exc e => rfl
        | ok cf =>
          dsimp only
          by_cases hcf : cf = []
          · rw [if_pos hcf]
            rfl
          · rw [if_neg hcf]
            cases hl : opts.include_links with
            | false => rfl
            | true =>
              rw [if_pos rfl]
              cases ha : env.anchors with
              | exc e => rfl
              | ok ancs =>
                dsimp only
                cases hsl : scrapeLinkLoop f ancs [] with
                | mk ls oe =>
                  cases oe with
                  | none => rfl
                  | some e => rfl

/-- The page environment of the C4 counterexample: the fetch succeeds but
the HTML parse raises. -/
def c4Env : ScrapeEnv :=
  { fetchRes := .ok ("<html><p>hi</p></html>", "http://u/", 200),
    parse := .exc "boom", meta := mEnvTriv, htmlStr := "",
    mdify := .ok "", textStr := "", anchors := .ok [] }

/-- Claim C4, counterexample: on a page whose content extraction fails at
the parse stage, `scrape` returns a result whose `content` is empty — but
whose `error` field is **not** set (it stays `None`, hence falsy): the
failure is only recorded under `metadata["error"]`. -/
theorem C4_counterexample :
    (scrapeModel c4Env "http://u" ["markdown"] {} "now").metadata.error =
      some "Content processing failed: boom" ∧
    (scrapeModel c4Env "http://u" ["markdown"] {} "now").content = [] ∧
    (scrapeModel c4Env "http://u" ["markdown"] {} "now").error = none ∧
    truthyErr (scrapeModel c4Env "http://u" ["markdown"] {} "now").error =
      false :=
  ⟨by rfl, by rfl, by rfl, by rfl⟩

/-- Claim C4 (amended): `scrape` never raises and never sets the top-level
`error` field — not even on failure.  A failure at any stage (fetch, parse,
format generation) is caught by the single inner handler, which empties
`content` and records `"Content processing failed: <e>"` under
`metadata["error"]`; the outer handlers (and the `"failed"` status they
would write) are dead code.  The conjuncts: (1) `error` is `None` on every
input; (2) fetch failure; (3) parse failure; (4) `markdownify` failure —
each yielding empty `content`, the `metadata["error"]` message and no
top-level error. -/
theorem C4_scrape_failure_amended :
    (∀ (env : ScrapeEnv) (url : String) (fs : List String) (opts : PageOpts)
       (now : String), (scrapeModel env url fs opts now).error = none) ∧
    (∀ (env : ScrapeEnv) (url : String) (fs : List String) (opts : PageOpts)
       (now e : String), env.fetchRes = .exc e →
      (scrapeModel env url fs opts now).content = [] ∧
      (scrapeModel env url fs opts now).metadata.error =
        some ("Content processing failed: " ++ e) ∧
      (scrapeModel env url fs opts now).metadata.status = StatusV.noneV) ∧
    (∀ (env : ScrapeEnv) (url : String) (fs : List String) (opts : PageOpts)
       (now c f e : String) (st : Int),
      env.fetchRes = .ok (c, f, st) → c ≠ "" → env.parse = .exc e →
      (scrapeModel env url fs opts now).content = [] ∧
      (scrapeModel env url fs opts now).metadata.error =
        some ("Content processing failed: " ++ e) ∧
      (scrapeModel env url fs opts now).error = none) ∧
    (∀ (env : ScrapeEnv) (url : String) (opts : PageOpts)
       (now c f e : String) (st : Int),
      env.fetchRes = .ok (c, f, st) → c ≠ "" → env.parse = .ok () →
      env.mdify = .exc e →
      (scrapeModel env url ["markdown"] opts now).content = [] ∧
      (scrapeModel env url ["markdown"] opts now).metadata.error =
        some ("Content processing failed: " ++ e) ∧
      (scrapeModel env url ["markdown"] opts now).error = none) := by
  refine ⟨fun env url fs opts now => scrapeModel_error_none env url fs opts now,
    ?_, ?_, ?_⟩
  · intro env url fs opts now e h1
    have he : scrapeModel env url fs opts now =
        contentFail { metadata := { source_url := url, retrieved_at := now } }
          e := by
      unfold scrapeModel
      rw [h1]
    rw [he]
    exact ⟨rfl, rfl, rfl⟩
  · intro env url fs opts now c f e st h1 h2 h3
    have he : scrapeModel env url fs opts now =
        contentFail { metadata := { source_url := url, retrieved_at := now, status := StatusV.code st, final_url := some f } } e := by
      unfold scrapeModel
      rw [h1]
      dsimp only
      rw [if_neg h2, h3]
    rw [he]
    exact ⟨rfl, rfl, rfl⟩
  · intro env url opts now c f e st h1 h2 h3 h4
    have hgf : generateFormats env.htmlStr env.mdify env.textStr
        (if (["markdown"] : List String) = [] then ["markdown"]
         else ["markdown"]) opts.clean_markdown = .exc e := by
      rw [ite_self, h4]
      rfl
    have he : scrapeModel env url ["markdown"] opts now =
        contentFail { metadata :=
          extractMetadata env.meta url f st now } e := by
      unfold scrapeModel
      rw [h1]
      dsimp only
      rw [if_neg h2, h3]
      dsimp only
      rw [hgf]
    rw [he]
    exact ⟨rfl, rfl, rfl⟩

/-- Witness for `C4_scrape_failure_amended` (parse-failure conjunct) on the
concrete environment `c4Env`. -/
theorem C4_scrape_failure_amended_witness :
    (scrapeModel c4Env "http://u" ["markdown"] {} "now").content = [] ∧
    (scrapeModel c4Env "http://u" ["markdown"] {} "now").metadata.error =
      some ("Content processing failed: " ++ "boom") ∧
    (scrapeModel c4Env "http://u" ["markdown"] {} "now").error = none :=
  C4_scrape_failure_amended.2.2.1 c4Env "http://u" ["markdown"] {} "now"
    "<html><p>hi</p></html>" "http://u/" "boom" 200 rfl (by decide) rfl

/-! ## Claim C3: per-page failures inside `Crawler.crawl`

A fetch/extraction failure inside `scrape` comes back as a *normal* result
with `error = None` (see `scrapeModel_error_none`), so the per-URL guard
`if result and not result.get("error")` takes the success branch: the
entry recorded in `pages` is the `{"content", "metadata", "links"}` shape
with **no** top-level `"error"` key, and the `except` branch that would
write one is unreachable for scraper failures. -/

/-- A scrape world whose fetch always fails with `"down"`. -/
def c3Env : ScrapeEnv :=
  { fetchRes := .exc "down", parse := .ok (), meta := mEnvTriv,
    htmlStr := "", mdify := .ok "", textStr := "", anchors := .ok [] }

/-- The scraper the C3 crawl runs against: every page is scraped through
`scrapeModel` over the failing world `c3Env`. -/
def c3ScrapeFn : List Char → Except String PageRes := fun u =>
  .ok (scrapeModel c3Env ⟨u⟩ ["markdown"] {} "now")

/-- The metadata dict `scrape` hands back for the failed page. -/
def c3Md : MetaRec :=
  { source_url := "https://example.com", retrieved_at := "now",
    error := some "Content processing failed: down" }

/-- The pages mapping the C3 crawl produces: one entry, keyed by the
normalized start URL, in the success shape with empty content. -/
def c3Pages : List (List Char × PageEntry) :=
  [("https://example.com".data, PageEntry.recorded [] c3Md [])]

/-- Claim C3, counterexample: crawling a start URL whose fetch fails
records a pages entry of the *success* shape — empty content, the failure
buried in `metadata["error"]` — not an entry carrying a top-level error
field: the recorded entry is never the `{"error": ...}` shape for a
scraper failure. -/
theorem C3_counterexample :
    crawlModel c3ScrapeFn "https://example.com/" { maxDepth := some 1 } 3 =
      .ok (some { pages := c3Pages, totalPages := 1, depthReached := 0, startUrl := "https://example.com/" }) ∧
    (∀ e : String, dictLookup "https://example.com".data c3Pages ≠
      some (PageEntry.errored e)) := by
  refine ⟨by rfl, ?_⟩
  intro e h
  have h2 : some (PageEntry.recorded [] c3Md []) =
      some (PageEntry.errored e) := by
    rw [← h]
    rfl
  exact PageEntry.noConfusion (Option.some.inj h2)

/-- Claim C3 (amended): a per-page scraper failure is never thrown past the
orchestrator and the crawl continues with the remaining URLs of the wave,
but the entry recorded for the failed URL does **not** carry an error
field: `scrape` returns normally with `error = None`, so the success
branch records `{"content": {}, "metadata": ..., "links": []}` and the
failure is only visible as `metadata["error"]` inside the entry.  The
conjuncts: (1) an admitted URL whose scrape returns without a truthy error
is recorded in the no-error-key shape and processing returns normally;
(2) a normally-processed URL lets the wave continue with the remaining
URLs; (3) the real scraper's result never has a truthy `error`. -/
theorem C3_page_error_recorded_amended :
    (∀ (scFn : List Char → Except String PageRes) (baseUrl : List Char)
       (opts : CrawlOpts) (st : CrawlState) (u nm : List Char) (r : PageRes)
       (q : List (List Char)),
      shouldCrawl st.visited u baseUrl opts = .ok true →
      normalizeAux u = .ok nm →
      scFn nm = .ok r →
      truthyErr r.error = false →
      crawlLinkLoop baseUrl opts (setAdd nm st.visited) u r.links st.queue =
        (q, none) →
      processUrl scFn baseUrl opts st u =
        .ok { visited := setAdd nm st.visited, queue := q,
              pages := dictInsert nm
                (.recorded r.content r.metadata r.links) st.pages,
              totalPages := st.totalPages + 1 }) ∧
    (∀ (scFn : List Char → Except String PageRes) (baseUrl : List Char)
       (opts : CrawlOpts) (st st' : CrawlState) (u : List Char)
       (rest : List (List Char)),
      processUrl scFn baseUrl opts st u = .ok st' →
      processWave scFn baseUrl opts (u :: rest) st =
        processWave scFn baseUrl opts rest st') ∧
    (∀ (env : ScrapeEnv) (url : String) (fs : List String) (opts : PageOpts)
       (now : String),
      truthyErr (scrapeModel env url fs opts now).error = false) := by
  refine ⟨?_, ?_, ?_⟩
  · intro scFn baseUrl opts st u nm r q h1 h2 h3 h4 h5
    unfold processUrl
    rw [h1]
    dsimp only
    rw [h2]
    dsimp only
    rw [h3]
    dsimp only
    rw [h4]
    simp only [Bool.false_eq_true, if_false]
    rw [h5]
  · intro scFn baseUrl opts st st' u rest h
    rw [processWave, h]
  · intro env url fs opts now
    rw [scrapeModel_error_none]
    rfl

/-- Witness for `C3_page_error_recorded_amended` (first conjunct): the
fetch-failing page of `c3ScrapeFn` is recorded in the no-error-key shape
and `processUrl` returns normally. -/
theorem C3_page_error_recorded_amended_witness :
    processUrl c3ScrapeFn "https://example.com/".data { maxDepth := some 1 }
      { visited := [], queue := [], pages := [], totalPages := 0 }
      "https://example.com/".data =
      .ok { visited := ["https://example.com".data], queue := [],
            pages := c3Pages, totalPages := 1 } :=
  C3_page_error_recorded_amended.1 c3ScrapeFn "https://example.com/".data
    { maxDepth := some 1 }
    { visited := [], queue := [], pages := [], totalPages := 0 }
    "https://example.com/".data "https://example.com".data
    (scrapeModel c3Env "https://example.com" ["markdown"] {} "now") []
    (by rfl) (by rfl) (by rfl) (by rfl) (by rfl)

end ScraperSpec
